import Mathlib

/-!
# Verification of the setup-detection and trade-simulation engine

Shallow embedding, in Lean 4, of the core numeric routines of the
stock-market research repository:

* `src/util/calc.ts` (`calculateSMA`, `calculateADR`, `calculateDollarVolume`)
* `src/util/outliers.ts` (`filterOutliers`, `getPercentile`, `calculateATR`,
  `calculateRangeSlope`, `calculateConsolidationBounds`)
* `src/util/volatility.ts` (`calculateATR` at-an-index variant,
  `calculateVolatilityContraction`, three-phase version)
* `src/util/chart.ts` (`fitLine`, the weighted Theil-Sen estimator)
* `src/db/findSetups.ts` (`calculateMoveEfficiency`, `calculateVolumePattern`,
  `calculatePriceActionQuality`, `findPriorMove`, `findConsolidationRange`,
  `findHighestPriceAndExit`, `findSetups`), and the trend-variant
  `findHighestPriceAndExit` of `findSetupsByTrend`.

Modelling conventions:

* JavaScript numbers are embedded as `ℚ`.  The literal constants `0.25`,
  `0.75`, `0.9`, `0.1`, `1.01`, `0.15`, ... are embedded as the exact
  rationals they denote in the source text.
* `Infinity` (the value of `calculateSMA` on short history) is embedded by
  giving that function the codomain `WithTop ℚ`, whose `⊤` compares exactly
  like the JS infinity against every finite close.
* A JS arithmetic expression that would produce `NaN` (0/0 on an empty
  slice in `calculateADR`) is embedded as `Option ℚ` with `none` for NaN;
  every JS comparison `x >= NaN` is `false`, which `jsGeOpt` reproduces.
* Division by zero inside ℚ (`x / 0 = 0` in Lean) only arises on inputs
  that are degenerate (zero prices / zero ATR phases); no theorem below
  depends on those junk values.
* Array indexing `data[i]` is embedded as `getBar`, total with a default
  bar; every theorem that needs in-bounds indexing carries the bound as a
  hypothesis, matching the call sites of the source.
* `Array.prototype.slice` (negative-index wrap-around and clamping
  included) is embedded faithfully as `jsSlice`.
* JS `Map` iteration order (insertion order, `set` on an existing key
  keeps its position) is embedded as an association list updated in place.
* The process-wide memoisation cache (`util/cache.ts`) wraps pure
  computations keyed by their arguments and is cleared per ticker; it is
  semantically the identity and is not modelled.
* Date formatting (`DateTime...toFormat`) is injective on distinct dates;
  dates are embedded as `ℕ` and the formatted date of a bar is its `date`
  field; the empty-string date of a zero-initialised record is `none`.
-/

/-- A daily price bar (`NonNullableDailyPricesObject`). -/
structure PriceBar where
  openPrice : ℚ
  high : ℚ
  low : ℚ
  close : ℚ
  volume : ℚ
  date : ℕ
deriving DecidableEq, Repr

instance : Inhabited PriceBar := ⟨⟨0, 0, 0, 0, 0, 0⟩⟩

/-- Total array indexing: `data[i]`, with a default bar out of range. -/
def getBar (data : List PriceBar) (i : ℕ) : PriceBar := data.getD i default

/-- `Array.prototype.slice(s, e)`: negative indices count from the end,
both bounds are clamped to `[0, length]`. -/
def jsSlice {α : Type} (xs : List α) (s e : ℤ) : List α :=
  let n : ℤ := xs.length
  let s' : ℤ := if s < 0 then max (n + s) 0 else min s n
  let e' : ℤ := if e < 0 then max (n + e) 0 else min e n
  (xs.take e'.toNat).drop s'.toNat

/-- `Math.floor(n * p)` used for percentile/quartile indices. -/
def jsFloorIdx (n : ℕ) (p : ℚ) : ℕ := (Int.toNat ⌊(n : ℚ) * p⌋)

/-- `Math.round` (round half toward +∞), as the JS source uses it. -/
def jsRound (x : ℚ) : ℤ := ⌊x + 1/2⌋

/-- JS comparison `x >= y` where `y` may be NaN (`none`): NaN compares false. -/
def jsGeOpt (x : ℚ) : Option ℚ → Bool
  | none => false
  | some v => decide (v ≤ x)

/-! ## `src/util/calc.ts` -/

/-- `calculateSMA(data, index, period)`: `Infinity` (⊤) when
`index < period`, else the mean of the last `period` closes up to `index`. -/
def calculateSMA (data : List PriceBar) (index period : ℕ) : WithTop ℚ :=
  if index < period then ⊤
  else
    some (((List.range period).foldl
      (fun acc k => acc + (getBar data (index - period + 1 + k)).close) 0) / period)

/-- `calculateADR(data, endIndex)`: `slice(endIndex-20, endIndex)`, then
`sum(high/low)/len - 1`.  An empty slice gives NaN in JS, embedded `none`. -/
def calculateADR (data : List PriceBar) (endIndex : ℕ) : Option ℚ :=
  let last20 := jsSlice data ((endIndex : ℤ) - 20) (endIndex : ℤ)
  if last20.length = 0 then none
  else some ((last20.foldl (fun acc d => acc + d.high / d.low) 0) / last20.length - 1)

/-- `calculateDollarVolume(data, endIndex)`: trailing 20-bar mean of
`close * volume` (the divisor is the constant 20). -/
def calculateDollarVolume (data : List PriceBar) (endIndex : ℕ) : ℚ :=
  (jsSlice data ((endIndex : ℤ) - 20) (endIndex : ℤ)).foldl
    (fun acc d => acc + d.close * d.volume) 0 / 20

/-! ## `src/util/outliers.ts` -/

/-- Ascending numeric sort `[...xs].sort((a, b) => a - b)`. -/
def sortAsc (xs : List ℚ) : List ℚ := List.insertionSort (· ≤ ·) xs

/-- `filterOutliers(data, multiplier)`: keep values within
`[q1 - m*iqr, q3 + m*iqr]`; lists shorter than 5 are returned unchanged. -/
def filterOutliers (data : List ℚ) (multiplier : ℚ := 3/2) : List ℚ :=
  if data.length < 5 then data
  else
    let sorted := sortAsc data
    let q1 := sorted.getD (jsFloorIdx sorted.length (1/4)) 0
    let q3 := sorted.getD (jsFloorIdx sorted.length (3/4)) 0
    let iqr := q3 - q1
    let lowerBound := q1 - multiplier * iqr
    let upperBound := q3 + multiplier * iqr
    data.filter (fun x => decide (lowerBound ≤ x) && decide (x ≤ upperBound))

/-- `getPercentile(sortedArray, percentile)` = `sortedArray[floor(len*p)]`. -/
def getPercentile (sortedArray : List ℚ) (percentile : ℚ) : ℚ :=
  sortedArray.getD (jsFloorIdx sortedArray.length percentile) 0

/-- True range of a bar against the previous close. -/
def trueRange (current previous : PriceBar) : ℚ :=
  max (current.high - current.low)
    (max |current.high - previous.close| |current.low - previous.close|)

/-- `outliers.ts` `calculateATR(data, period=14)`: mean true range over the
last `period` bars of the window, 0 if the window is shorter than
`period + 1`. -/
def calculateATR (data : List PriceBar) (period : ℕ := 14) : ℚ :=
  if data.length < period + 1 then 0
  else
    ((List.range period).foldl
      (fun acc k =>
        acc + trueRange (getBar data (data.length - (k + 1)))
                        (getBar data (data.length - (k + 1) - 1))) 0) / period

/-- `calculateRangeSlope(data)`: least-squares slope of the per-bar
midpoints over the index, normalised by the mean price; 0 below 5 bars. -/
def calculateRangeSlope (data : List PriceBar) : ℚ :=
  if data.length < 5 then 0
  else
    let midpoints := data.map (fun d => (d.high + d.low) / 2)
    let n : ℚ := midpoints.length
    let sums := (List.range midpoints.length).foldl
      (fun acc i =>
        let y := midpoints.getD i 0
        (acc.1 + (i : ℚ), acc.2.1 + y, acc.2.2.1 + (i : ℚ) * y, acc.2.2.2 + (i : ℚ) * (i : ℚ)))
      ((0 : ℚ), (0 : ℚ), (0 : ℚ), (0 : ℚ))
    let sumX := sums.1
    let sumY := sums.2.1
    let sumXY := sums.2.2.1
    let sumX2 := sums.2.2.2
    let slope := (n * sumXY - sumX * sumY) / (n * sumX2 - sumX * sumX)
    slope / (sumY / n)

/-- Result record of `calculateConsolidationBounds`. -/
structure ConsolidationBounds where
  upperBound : ℚ
  lowerBound : ℚ
  rangeQuality : ℚ
  densityScore : ℚ
  isValidConsolidation : Bool
deriving DecidableEq, Repr

/-- The body-in-range test of the density loop: non-doji candles whose
body overlaps the band by strictly more than half. -/
def candleInRange (upperBound lowerBound : ℚ) (c : PriceBar) : Bool :=
  let bodyHigh := max c.openPrice c.close
  let bodyLow := min c.openPrice c.close
  let bodySize := bodyHigh - bodyLow
  let overlapSize := max 0 (min bodyHigh upperBound - max bodyLow lowerBound)
  decide (bodySize ≠ 0) && decide (1/2 < overlapSize / bodySize)

/-- `calculateConsolidationBounds(data, lowerP=0.1, upperP=0.9, mult=1.0)`. -/
def calculateConsolidationBounds (data : List PriceBar)
    (lowerPercentile : ℚ := 1/10) (upperPercentile : ℚ := 9/10)
    (outlierMultiplier : ℚ := 1) : ConsolidationBounds :=
  let highs := data.map (fun d => d.high)
  let lows := data.map (fun d => d.low)
  let filteredHighs := filterOutliers highs outlierMultiplier
  let filteredLows := filterOutliers lows outlierMultiplier
  let sortedHighs := sortAsc filteredHighs
  let sortedLows := sortAsc filteredLows
  let upperBound := getPercentile sortedHighs upperPercentile
  let lowerBound := getPercentile sortedLows lowerPercentile
  let range := upperBound - lowerBound
  let atr := calculateATR data 14
  let rangeToATR := if 0 < atr then range / atr else 999
  let candlesInRange := data.countP (candleInRange upperBound lowerBound)
  let densityScore := (candlesInRange : ℚ) / data.length
  let rangeSlope := |calculateRangeSlope data|
  let isValidConsolidation :=
    decide (rangeToATR < 3) && decide (4/5 < densityScore) && decide (rangeSlope < 5/1000)
  let rangeQuality :=
    (1 - min (rangeToATR / 5) 1) * (4/10) + densityScore * (4/10)
      + (1 - min (rangeSlope / (1/100)) 1) * (2/10)
  { upperBound := upperBound
    lowerBound := lowerBound
    rangeQuality := rangeQuality
    densityScore := densityScore
    isValidConsolidation := isValidConsolidation }

/-! ## `src/util/volatility.ts` (three-phase variant) -/

/-- `volatility.ts` `calculateATR(data, period, startIndex)`: mean true
range of the `period` bars ending at `startIndex`; 0 when
`startIndex < period`. -/
def calculateATRAt (data : List PriceBar) (period startIndex : ℕ) : ℚ :=
  if startIndex < period then 0
  else
    ((List.range period).foldl
      (fun acc i =>
        acc + trueRange (getBar data (startIndex - i)) (getBar data (startIndex - i - 1))) 0)
      / period

/-- `calculateVolatilityContraction(data, startIndex, endIndex)`: first-3
vs last-3 ATR for windows under 15 days, three-phase 30%/70% blend for
longer ones, 0 under 7 days or on a zero early ATR. -/
def calculateVolatilityContraction (data : List PriceBar) (startIndex endIndex : ℕ) : ℚ :=
  if endIndex - startIndex < 7 then 0
  else
    let totalDays := endIndex - startIndex
    if totalDays < 15 then
      let startATR := calculateATRAt data 3 (startIndex + 2)
      let endATR := calculateATRAt data 3 endIndex
      if startATR = 0 then 0 else 1 - endATR / startATR
    else
      let earlyPhaseEnd := startIndex + totalDays / 3
      let earlyPhaseATR := calculateATRAt data 5 earlyPhaseEnd
      let midPhaseEnd := startIndex + (totalDays * 2) / 3
      let midPhaseATR := calculateATRAt data 5 midPhaseEnd
      let latePhaseATR := calculateATRAt data 5 endIndex
      if earlyPhaseATR = 0 then 0
      else (1 - midPhaseATR / earlyPhaseATR) * (3/10) + (1 - latePhaseATR / midPhaseATR) * (7/10)

/-! ## `src/db/findSetups.ts`: configuration and quality helpers -/

/-- The `config` literal of `findSetups.ts`. -/
def priorMoveMaxDays : ℕ := 60
/-- `priorMoveMaxWindow`. -/
def priorMoveMaxWindow : ℕ := 10
/-- `minADRMultiple`. -/
def minADRMultiple : ℚ := 4
/-- `maxPullbackFromHigh`. -/
def maxPullbackFromHigh : ℚ := 1/2
/-- `moveEfficiencyThreshold`. -/
def moveEfficiencyThreshold : ℚ := 1/2
/-- `consolidationMinDays`. -/
def consolidationMinDays : ℕ := 5
/-- `consolidationMaxDays`. -/
def consolidationMaxDays : ℕ := 60
/-- `minVolatilityContraction`. -/
def minVolatilityContraction : ℚ := 15/100
/-- `minDollarVolume`. -/
def minDollarVolume : ℚ := 1000000
/-- `maxExtensionFromHigh`. -/
def maxExtensionFromHigh : ℚ := 6/100
/-- `maxGapSize`. -/
def maxGapSize : ℚ := 5/100
/-- `minPriceActionQuality`. -/
def minPriceActionQuality : ℚ := 65/100
/-- `minOverallQualityScore` (compared against the rounded integer score). -/
def minOverallQualityScore : ℤ := 60

/-- `calculateMoveEfficiency(data, startIndex, endIndex)`. -/
def calculateMoveEfficiency (data : List PriceBar) (startIndex endIndex : ℕ) : ℚ :=
  if endIndex ≤ startIndex then 0
  else
    let totalMove := |(getBar data endIndex).close - (getBar data startIndex).close|
    let totalMovement := (List.range' (startIndex + 1) (endIndex - startIndex)).foldl
      (fun acc i => acc + |(getBar data i).close - (getBar data (i - 1)).close|) 0
    if 0 < totalMovement then totalMove / totalMovement else 0

/-- `calculateVolumePattern(data, startIndex, endIndex)`. -/
def calculateVolumePattern (data : List PriceBar) (startIndex endIndex : ℕ) : ℚ :=
  if endIndex - startIndex < 5 then 1/2
  else
    let firstHalfEnd := startIndex + (endIndex - startIndex) / 2
    let firstSum := (List.range' startIndex (firstHalfEnd - startIndex + 1)).foldl
      (fun acc i => acc + (getBar data i).volume) 0
    let firstHalfAvgVolume := firstSum / ((firstHalfEnd : ℚ) - (startIndex : ℚ) + 1)
    let secondSum := (List.range' (firstHalfEnd + 1) (endIndex - firstHalfEnd)).foldl
      (fun acc i => acc + (getBar data i).volume) 0
    let secondHalfAvgVolume := secondSum / ((endIndex : ℚ) - (firstHalfEnd : ℚ))
    if 0 < firstHalfAvgVolume then min 1 (secondHalfAvgVolume / firstHalfAvgVolume) else 1/2

/-- `calculatePriceActionQuality(data, startIndex, endIndex)`. -/
def calculatePriceActionQuality (data : List PriceBar) (startIndex endIndex : ℕ) : ℚ :=
  if endIndex ≤ startIndex then 0
  else
    let totalDays : ℚ := (endIndex : ℚ) - (startIndex : ℚ)
    let pens := (List.range' (startIndex + 1) (endIndex - startIndex)).foldl
      (fun acc i =>
        let prevClose := (getBar data (i - 1)).close
        let currentOpen := (getBar data i).openPrice
        let currentHigh := (getBar data i).high
        let currentLow := (getBar data i).low
        let currentClose := (getBar data i).close
        let gapSize := |currentOpen - prevClose| / prevClose
        let acc1 := if maxGapSize < gapSize then (acc.1 + gapSize, acc.2) else acc
        let bodySize := |currentClose - currentOpen|
        let upperWick := currentHigh - max currentOpen currentClose
        let lowerWick := min currentOpen currentClose - currentLow
        let totalWick := upperWick + lowerWick
        if 0 < bodySize ∧ 2 < totalWick / bodySize then (acc1.1, acc1.2 + 1/10) else acc1)
      ((0 : ℚ), (0 : ℚ))
    let gapScore := max 0 (1 - pens.1 / totalDays)
    let wickScore := max 0 (1 - pens.2 / totalDays)
    (gapScore + wickScore) / 2

/-! ## Exit simulation (`findHighestPriceAndExit`, momentum and trend variants) -/

/-- The running `highestPrice` record. -/
structure HighestPriceRec where
  index : ℕ
  price : ℚ
  days : ℤ
  date : Option ℕ
deriving DecidableEq, Repr

instance : Inhabited HighestPriceRec := ⟨⟨0, 0, 0, none⟩⟩

/-- The `exit` record.  `date = none` embeds the `""` placeholder of the
zero-initialised record of the momentum variant. -/
structure ExitRec where
  price : ℚ
  index : ℕ
  days : ℤ
  reason : String
  date : Option ℕ
deriving DecidableEq, Repr

instance : Inhabited ExitRec := ⟨⟨0, 0, 0, "", none⟩⟩

/-- Result of an exit simulation: the exit and the tracked highest price. -/
structure ExitResult where
  exit : ExitRec
  highestPrice : HighestPriceRec
deriving DecidableEq, Repr

/-- One highest-price update: step 1 of each loop iteration, identical in
both variants (`if (data[i].high > highestPrice.price) ...`). -/
def hpUpdate (data : List PriceBar) (entryIndex i : ℕ) (hp : HighestPriceRec) :
    HighestPriceRec :=
  if hp.price < (getBar data i).high then
    { index := i
      price := (getBar data i).high
      days := (i : ℤ) - (entryIndex : ℤ)
      date := some (getBar data i).date }
  else hp

/-- Loop body of the momentum variant (`findSetups.ts:508-538`): walks `i`
up from `index + 1`; on `close < entryLOD` exits "low of the day", else on
`close < SMA10` exits "SMA10"; if the walk falls off the end the exit
stays the zero-initialised record (reason `""`).  The structural `fuel`
argument bounds the recursion; every caller passes `data.length`, which the
`i < data.length` guard makes sufficient, so the 0-fuel case is never the
deciding one. -/
def mExitLoop (data : List PriceBar) (entryIndex : ℕ) :
    ℕ → HighestPriceRec → ℕ → ExitResult
  | 0, hp, _ => { exit := default, highestPrice := hp }
  | fuel + 1, hp, i =>
    if i < data.length then
      let hp' := hpUpdate data entryIndex i hp
      if (getBar data i).close < (getBar data entryIndex).low then
        { exit := { price := (getBar data i).close, index := i
                    days := (i : ℤ) - (entryIndex : ℤ)
                    reason := "low of the day", date := some (getBar data i).date }
          highestPrice := hp' }
      else if ((getBar data i).close : WithTop ℚ) < calculateSMA data i 10 then
        { exit := { price := (getBar data i).close, index := i
                    days := (i : ℤ) - (entryIndex : ℤ)
                    reason := "SMA10", date := some (getBar data i).date }
          highestPrice := hp' }
      else mExitLoop data entryIndex fuel hp' (i + 1)
    else { exit := default, highestPrice := hp }

/-- `findSetups.ts` `findHighestPriceAndExit(data, trade, index)` with
`entryIndex = trade.entry.index`: zero-initialised running records, loop
from `index + 1`, and *no* end-of-data fallback. -/
def findHighestPriceAndExit (data : List PriceBar) (entryIndex index : ℕ) : ExitResult :=
  mExitLoop data entryIndex data.length
    { index := 0, price := 0, days := 1, date := none } (index + 1)

/-- Loop of the trend variant (`findSetupsByTrend`): same two exit rules,
but the exit is an `Option` that a missing trigger leaves `none`; `fuel`
as in `mExitLoop`. -/
def tExitLoop (data : List PriceBar) (entryIndex : ℕ) :
    ℕ → HighestPriceRec → ℕ → Option ExitRec × HighestPriceRec
  | 0, hp, _ => (none, hp)
  | fuel + 1, hp, i =>
    if i < data.length then
      let hp' := hpUpdate data entryIndex i hp
      if (getBar data i).close < (getBar data entryIndex).low then
        (some { price := (getBar data i).close, index := i
                days := (i : ℤ) - (entryIndex : ℤ)
                reason := "low of the day", date := some (getBar data i).date }, hp')
      else if ((getBar data i).close : WithTop ℚ) < calculateSMA data i 10 then
        (some { price := (getBar data i).close, index := i
                days := (i : ℤ) - (entryIndex : ℤ)
                reason := "SMA10", date := some (getBar data i).date }, hp')
      else tExitLoop data entryIndex fuel hp' (i + 1)
    else (none, hp)

/-- Trend-variant `findHighestPriceAndExit`: the highest price starts at
the entry bar itself, and a missing trigger falls back to an
"end of data" exit at the last bar. -/
def findHighestPriceAndExitTrend (data : List PriceBar) (entryIndex : ℕ) : ExitResult :=
  let hp0 : HighestPriceRec :=
    { index := entryIndex
      price := (getBar data entryIndex).high
      days := 0
      date := some (getBar data entryIndex).date }
  let r := tExitLoop data entryIndex data.length hp0 (entryIndex + 1)
  match r.1 with
  | some e => { exit := e, highestPrice := r.2 }
  | none =>
      let lastIndex := data.length - 1
      { exit := { price := (getBar data lastIndex).close
                  index := lastIndex
                  days := (lastIndex : ℤ) - (entryIndex : ℤ)
                  reason := "end of data"
                  date := some (getBar data lastIndex).date }
        highestPrice := r.2 }

/-! ## `src/util/chart.ts`: weighted Theil-Sen `fitLine` -/

/-- A fitted trendline. -/
structure Trendline where
  slope : ℚ
  intercept : ℚ
deriving DecidableEq, Repr

/-- The cumulative-weight walk of `weightedMedian`: returns the first value
whose running weight reaches half the total, with the last value as the
fallback. -/
def wmWalk (total : ℚ) : List (ℚ × ℚ) → ℚ → ℚ → ℚ
  | [], _, fallback => fallback
  | (v, w) :: rest, cumulative, fallback =>
      if total / 2 ≤ cumulative + w then v else wmWalk total rest (cumulative + w) fallback

/-- `weightedMedian(values, weights)`: sort the (value, weight) pairs by
value, then walk the cumulative weight.  (JS sorts an index array with
comparator `values[a] - values[b]`; ties carry equal values, so the
returned value does not depend on the tie order.) -/
def weightedMedian (values weights : List ℚ) : ℚ :=
  let sorted := List.insertionSort (fun p q : ℚ × ℚ => p.1 ≤ q.1) (values.zip weights)
  let totalWeight := (sorted.map Prod.snd).foldl (· + ·) 0
  wmWalk totalWeight sorted 0 ((sorted.map Prod.fst).getLastD 0)

/-- `fitLine(data, keyFunc)`: weighted Theil-Sen estimator; `none` below 2
points.  Pair slopes are weighted `(i+1) + (j+1)`, intercepts `index+1`. -/
def fitLine (data : List PriceBar) (keyFunc : PriceBar → ℚ) : Option Trendline :=
  if data.length < 2 then none
  else
    let pairs := (List.range data.length).flatMap
      (fun i => (List.range' (i + 1) (data.length - (i + 1))).map
        (fun j =>
          ((keyFunc (getBar data j) - keyFunc (getBar data i)) / ((j : ℚ) - (i : ℚ)),
            ((i : ℚ) + 1 + ((j : ℚ) + 1)))))
    let slope := weightedMedian (pairs.map Prod.fst) (pairs.map Prod.snd)
    let intercepts := (List.range data.length).map
      (fun idx => keyFunc (getBar data idx) - slope * (idx : ℚ))
    let interceptWeights := (List.range data.length).map (fun idx => ((idx : ℚ) + 1))
    some { slope := slope, intercept := weightedMedian intercepts interceptWeights }

/-! ## `findConsolidationRange` -/

/-- The breakout confirmation of `findSetups.ts` (lines 434-445 and
674-684): bar `b` breaks out of `upperBound` iff its close exceeds the
bound or its high exceeds the bound by 1%, and bar `b-1` did not already
close above the bound. -/
def breakoutCheck (data : List PriceBar) (b : ℕ) (upperBound : ℚ) : Bool :=
  (decide (upperBound < (getBar data b).close)
      || decide (upperBound * (101/100) < (getBar data b).high))
    && decide ((getBar data (b - 1)).close ≤ upperBound)

/-- A candidate consolidation range (the record built by
`findConsolidationRange`). -/
structure Consol where
  upperBound : ℚ
  lowerBound : ℚ
  startIndex : ℕ
  endIndex : ℕ
  volatilityContraction : ℚ
  rangeQuality : ℚ
  densityScore : ℚ
  qualityScore : ℤ
  breakoutPrice : ℚ
deriving DecidableEq, Repr

instance : Inhabited Consol := ⟨⟨0, 0, 0, 0, 0, 0, 0, 0, 0⟩⟩

/-- One period-iteration of the inner loop of `findConsolidationRange`:
evaluates the window `[adjustedStartIndex, endIndex)` and keeps the
best-quality candidate that passes every gate and `breakoutCheck`. -/
def consolStep (data : List PriceBar) (priorHighIndex priorLowIndex : ℕ)
    (adjustedStartIndex period : ℕ) (best : Option Consol) : Option Consol :=
  let endIndex := adjustedStartIndex + period
  let consolidationData := (data.take endIndex).drop adjustedStartIndex
  let b := calculateConsolidationBounds consolidationData (1/10) (9/10) 1
  if !b.isValidConsolidation then best
  else
    let volatilityContraction :=
      calculateVolatilityContraction data adjustedStartIndex (endIndex - 1)
    let volumePattern := calculateVolumePattern data adjustedStartIndex (endIndex - 1)
    let priceActionQuality :=
      calculatePriceActionQuality data adjustedStartIndex (endIndex - 1)
    let qualityScore := jsRound
      ((b.rangeQuality * (3/10) + volatilityContraction * (25/100)
          + b.densityScore * (2/10) + volumePattern * (15/100)
          + priceActionQuality * (1/10)) * 100)
    let consolidationMidpoint := (b.upperBound + b.lowerBound) / 2
    let priorMoveMidpoint :=
      ((getBar data priorHighIndex).high + (getBar data priorLowIndex).low) / 2
    if !(decide (priorMoveMidpoint < consolidationMidpoint)) then best
    else
      let minRequiredContraction :=
        if consolidationData.length ≤ 15 then minVolatilityContraction * (8/10)
        else minVolatilityContraction
      if decide (minRequiredContraction ≤ volatilityContraction)
          && decide (minPriceActionQuality ≤ priceActionQuality)
          && decide (minOverallQualityScore ≤ qualityScore)
          && breakoutCheck data endIndex b.upperBound then
        let consolidation : Consol :=
          { upperBound := b.upperBound
            lowerBound := b.lowerBound
            startIndex := adjustedStartIndex
            endIndex := endIndex
            volatilityContraction := volatilityContraction
            rangeQuality := b.rangeQuality
            densityScore := b.densityScore
            qualityScore := qualityScore
            breakoutPrice := b.upperBound }
        match best with
        | none => some consolidation
        | some prev => if prev.qualityScore < qualityScore then some consolidation else some prev
      else best

/-- The inner `for (period = 5; period <= 60; period++)` loop, with its
`break` once `endIndex >= data.length - 1`.  The `fuel` argument counts
the remaining periods (56 at the initial call), which makes the recursion
structural; it is exactly the number of iterations the JS loop bound
allows. -/
def consolPeriodLoop (data : List PriceBar) (priorHighIndex priorLowIndex : ℕ)
    (adjustedStartIndex : ℕ) : ℕ → ℕ → Option Consol → Option Consol
  | 0, _, best => best
  | fuel + 1, period, best =>
      if data.length - 1 ≤ adjustedStartIndex + period then best
      else
        consolPeriodLoop data priorHighIndex priorLowIndex adjustedStartIndex fuel
          (period + 1)
          (consolStep data priorHighIndex priorLowIndex adjustedStartIndex period best)

/-- `findConsolidationRange(data, priorMove)`: tries start offsets 0..10
after the prior-move high and periods 5..60, returning the best-quality
candidate that passes all gates, or `none`. -/
def findConsolidationRange (data : List PriceBar) (priorHighIndex priorLowIndex : ℕ) :
    Option Consol :=
  (List.range 11).foldl
    (fun best offset =>
      consolPeriodLoop data priorHighIndex priorLowIndex (priorHighIndex + offset)
        (consolidationMaxDays - consolidationMinDays + 1) consolidationMinDays best)
    none

/-! ## `findPriorMove` -/

/-- A detected prior move. -/
structure PriorMove where
  highIndex : ℕ
  lowIndex : ℕ
  pct : ℚ
  highDate : ℕ
  lowDate : ℕ
deriving DecidableEq, Repr

/-- The inner `for (i = rhi+1; i < rhi+4 && i < index; i++)` of the
high-extension: the bound tracks the updated `recentHighIndex`, so the
window slides while new highs keep appearing; returns the final index and
whether any update happened. -/
def extendInner (data : List PriceBar) (index rhi i : ℕ) : ℕ × Bool :=
  if h : i < rhi + 4 ∧ i < index then
    if (getBar data rhi).high < (getBar data i).high then
      ((extendInner data index i (i + 1)).1, true)
    else extendInner data index rhi (i + 1)
  else (rhi, false)
termination_by index - i
decreasing_by
  all_goals exact Nat.sub_lt_sub_left h.2 (Nat.lt_succ_self i)

/-- `extendInner` either reports no update and returns its input, or
reports an update and returns an index in `[i, index)`. -/
theorem extendInner_spec (data : List PriceBar) (index : ℕ) :
    ∀ rhi i, (extendInner data index rhi i = (rhi, false)) ∨
      ((extendInner data index rhi i).2 = true ∧
        i ≤ (extendInner data index rhi i).1 ∧ (extendInner data index rhi i).1 < index) := by
  intro rhi i
  generalize hn : index - i = n
  induction n using Nat.strong_induction_on generalizing rhi i with
  | _ n ih =>
    rw [extendInner]
    by_cases h : i < rhi + 4 ∧ i < index
    · simp only [h, dif_pos]
      have hlt : index - (i + 1) < n := by omega
      by_cases hup : (getBar data rhi).high < (getBar data i).high
      · simp only [hup, if_pos]
        rcases ih _ hlt i (i + 1) rfl with heq | ⟨_, hge, hub⟩
        · rw [heq]; right; exact ⟨rfl, le_refl i, h.2⟩
        · right; exact ⟨rfl, le_trans (Nat.le_succ i) hge, hub⟩
      · simp only [hup, if_neg, if_false]
        rcases ih _ hlt rhi (i + 1) rfl with heq | ⟨hflag, hge, hub⟩
        · rw [heq]; left; rfl
        · right; exact ⟨hflag, le_trans (Nat.le_succ i) hge, hub⟩
    · simp only [h, dif_neg]; left; rfl

/-- The outer `while (newHighInNext3Days)` loop around `extendInner`. -/
def extendWhile (data : List PriceBar) (index rhi : ℕ) : ℕ :=
  if h : (extendInner data index rhi (rhi + 1)).2 = true then
    have : index - (extendInner data index rhi (rhi + 1)).1 < index - rhi := by
      rcases extendInner_spec data index rhi (rhi + 1) with heq | ⟨_, hge, hub⟩
      · rw [heq] at h; simp at h
      · omega
    extendWhile data index (extendInner data index rhi (rhi + 1)).1
  else rhi
termination_by index - rhi

/-- `findPriorMove(data, index)` (`findSetups.ts:152-291`): absolute
high/low over the 60-day lookback, the V-shaped-recovery refinement, the
ADR-relative significance gates and the efficiency gate. -/
def findPriorMove (data : List PriceBar) (index : ℕ) : Option PriorMove :=
  let startIndex := index - priorMoveMaxDays
  let fp := (List.range' startIndex (index - startIndex)).foldl
    (fun (hl : ℕ × ℕ) i =>
      (if (getBar data hl.1).high < (getBar data i).high then i else hl.1,
        if (getBar data i).low < (getBar data hl.2).low then i else hl.2))
    (0, 0)
  let highIndex0 := fp.1
  let lowIndex0 := fp.2
  let vres : ℕ × Bool :=
    if highIndex0 < lowIndex0 then (lowIndex0, true)
    else
      let s := (List.range' (highIndex0 + 1) ((index - 5) - (highIndex0 + 1))).foldl
        (fun (st : ℕ × ℕ × Bool) i =>
          if (getBar data i).low < (getBar data st.1).low then
            if 3/20 ≤ ((getBar data highIndex0).high - (getBar data i).low)
                / (getBar data i).low
            then (i, i, true) else (i, st.2.1, st.2.2)
          else st)
        (highIndex0, lowIndex0, false)
      (s.2.1, s.2.2)
  let recentLowIndex := vres.1
  let hl : ℕ × ℕ :=
    if vres.2 then
      let rh0 := (List.range' (recentLowIndex + 1) (index - (recentLowIndex + 1))).foldl
        (fun rh i => if (getBar data rh).high < (getBar data i).high then i else rh)
        recentLowIndex
      let recentHighIndex := extendWhile data index rh0
      let recentPct := ((getBar data recentHighIndex).high - (getBar data recentLowIndex).low)
          / (getBar data recentLowIndex).low
      let adrAtRecentHigh := calculateADR data recentHighIndex
      if jsGeOpt recentPct (adrAtRecentHigh.map (fun a => a * minADRMultiple * (8/10)))
      then (recentHighIndex, recentLowIndex) else (highIndex0, lowIndex0)
    else (highIndex0, lowIndex0)
  let highIndex := hl.1
  let lowIndex := hl.2
  let pct := ((getBar data highIndex).high - (getBar data lowIndex).low)
      / (getBar data lowIndex).low
  let adrAtHigh := calculateADR data highIndex
  let isSignificantMove := jsGeOpt pct (adrAtHigh.map (fun a => a * minADRMultiple))
  let withinExplosiveWindow := highIndex - lowIndex ≤ priorMoveMaxWindow
  let moveEfficiency := calculateMoveEfficiency data lowIndex highIndex
  if isSignificantMove ∧ lowIndex < highIndex ∧ withinExplosiveWindow
      ∧ moveEfficiencyThreshold ≤ moveEfficiency then
    some { highIndex := highIndex, lowIndex := lowIndex, pct := pct
           highDate := (getBar data highIndex).date
           lowDate := (getBar data lowIndex).date }
  else none

/-! ## The orchestrator `findSetups` (scan, dedup, gates, assembly) -/

/-- The `trade.entry` record. -/
structure EntryRec where
  price : ℚ
  index : ℕ
  trendlineBreakPrice : ℚ
  adr : Option ℚ
  dollarVolume : ℚ
  date : ℕ
deriving DecidableEq, Repr

/-- The `consolidation` object stored on a setup. -/
structure ConsolidationInfo where
  slope : ℚ
  days : ℕ
  startIndex : ℕ
  endIndex : ℕ
  startDate : ℕ
  endDate : ℕ
  volatilityContraction : ℚ
  qualityScore : ℤ
  rangeQuality : ℚ
  densityScore : ℚ
deriving DecidableEq, Repr

/-- An entry of the `potentialSetups` map. -/
structure PotSetup where
  priorMove : PriorMove
  consolidation : ConsolidationInfo
  entry : EntryRec
  endIndex : ℕ
  upperBound : ℚ
  lowerBound : ℚ
  volatilityContraction : ℚ
  qualityScore : ℤ
  trendline : Trendline
deriving DecidableEq, Repr

/-- A finished setup (`Setup` minus the external ticker code). -/
structure SetupRec where
  priorMove : PriorMove
  consolidation : ConsolidationInfo
  entry : EntryRec
  tradeExit : ExitRec
  highestPrice : HighestPriceRec
deriving DecidableEq, Repr

/-- The dedup key `${startIndex}-${endIndex}-${entry.date}`. -/
abbrev SetupKey := ℕ × ℕ × ℕ

/-- JS-`Map`-faithful upsert: `set` on a present key overwrites in place
(keeping insertion order), a fresh key is appended; the overwrite happens
only when the new prior move is strictly stronger, per `findSetups.ts:692`. -/
def upsertPot : List (SetupKey × PotSetup) → SetupKey → PotSetup →
    List (SetupKey × PotSetup)
  | [], k, v => [(k, v)]
  | (k', v') :: rest, k, v =>
      if k' = k then
        if v'.priorMove.pct < v.priorMove.pct then (k', v) :: rest else (k', v') :: rest
      else (k', v') :: upsertPot rest k v

/-- The body of the forward scan (`findSetups.ts:579-709`) at index `i`:
prior move, consolidation, extension gate, pullback gate, trendline,
liquidity gate, breakout re-check, and the keyed strongest-prior-move
dedup. -/
def scanStep (data : List PriceBar) (acc : List (SetupKey × PotSetup)) (i : ℕ) :
    List (SetupKey × PotSetup) :=
  match findPriorMove data i with
  | none => acc
  | some priorMove =>
    match findConsolidationRange data priorMove.highIndex priorMove.lowIndex with
    | none => acc
    | some cr =>
      let endIndex := cr.endIndex
      let adr := calculateADR data endIndex
      if (getBar data priorMove.highIndex).high * (1 + maxExtensionFromHigh)
          < (getBar data endIndex).close then acc
      else
        let priorMoveHigh := (getBar data priorMove.highIndex).high
        let priorMoveLow := (getBar data priorMove.lowIndex).low
        let minAllowedLevel :=
          priorMoveHigh - (priorMoveHigh - priorMoveLow) * maxPullbackFromHigh
        if (List.range' (priorMove.highIndex + 1) (endIndex - priorMove.highIndex)).any
            (fun j => decide ((getBar data j).low < minAllowedLevel)) then acc
        else
          match fitLine ((data.take endIndex).drop cr.startIndex) (fun d => d.high) with
          | none => acc
          | some trendline =>
            let consolidation : ConsolidationInfo :=
              { slope := trendline.slope
                days := endIndex - cr.startIndex
                startIndex := cr.startIndex
                endIndex := endIndex
                startDate := (getBar data cr.startIndex).date
                endDate := (getBar data endIndex).date
                volatilityContraction := cr.volatilityContraction
                qualityScore := cr.qualityScore
                rangeQuality := cr.rangeQuality
                densityScore := cr.densityScore }
            let dollarVolume := calculateDollarVolume data endIndex
            if dollarVolume < minDollarVolume then acc
            else
              let entry : EntryRec :=
                { price := (getBar data endIndex).close
                  index := endIndex
                  trendlineBreakPrice := cr.breakoutPrice
                  adr := adr
                  dollarVolume := dollarVolume
                  date := (getBar data endIndex).date }
              if breakoutCheck data endIndex cr.upperBound then
                upsertPot acc (cr.startIndex, cr.endIndex, entry.date)
                  { priorMove := priorMove
                    consolidation := consolidation
                    entry := entry
                    endIndex := endIndex
                    upperBound := cr.upperBound
                    lowerBound := cr.lowerBound
                    volatilityContraction := cr.volatilityContraction
                    qualityScore := cr.qualityScore
                    trendline := trendline }
              else acc

/-- Second phase (`findSetups.ts:713-761`): walk the potential setups in
insertion order, stop at `maxSetups` (0 = no cap), and attach the exit
simulation. -/
def buildLoop (data : List PriceBar) (maxSetups processedCount : ℕ) :
    List (SetupKey × PotSetup) → List SetupRec
  | [] => []
  | (_, p) :: rest =>
      if 0 < maxSetups ∧ maxSetups ≤ processedCount then []
      else
        let er := findHighestPriceAndExit data p.entry.index p.endIndex
        { priorMove := p.priorMove
          consolidation := p.consolidation
          entry := p.entry
          tradeExit := er.exit
          highestPrice := er.highestPrice } ::
          buildLoop data maxSetups (processedCount + 1) rest

/-- `findSetups(ticker, maxSetups, generateCharts)` restricted to its pure
core: the Setup list computed from the processed price series.  Chart
rendering and persistence are the out-of-scope collaborators and do not
feed back into this value. -/
def findSetupsPure (data : List PriceBar) (maxSetups : ℕ) : List SetupRec :=
  buildLoop data maxSetups 0 ((List.range data.length).foldl (scanStep data) [])

/-! ## Concrete series used by the witnesses and counterexamples -/

/-- Bar constructor shorthand. -/
def mkBar (o h l c v : ℚ) (d : ℕ) : PriceBar := ⟨o, h, l, c, v, d⟩

/-- 18 bars: a prior-move bar, a 15-bar tight consolidation starting at
index 1 (= the prior-move high), a breakout bar 16, and a trailing bar. -/
def exData : List PriceBar :=
  [mkBar 200 206 100 202 1000 0] ++
  ((List.range' 1 3).map (fun i => mkBar 200 206 194 202 1000 i)) ++
  ((List.range' 4 9).map (fun i => mkBar 200 205 195 202 1000 i)) ++
  ((List.range' 13 3).map (fun i => mkBar 200 203 197 202 1000 i)) ++
  [mkBar 206 210 204 208 1000 16, mkBar 206 210 204 208 1000 17]

/-- The consolidation `findConsolidationRange` finds on `exData` for the
prior move `highIndex = 1, lowIndex = 0`. -/
def exConsol : Consol :=
  { upperBound := 205, lowerBound := 195, startIndex := 1, endIndex := 16
    volatilityContraction := 1/2, rangeQuality := 151/165, densityScore := 1
    qualityScore := 85, breakoutPrice := 205 }

/-- 12 identical bars: no exit rule ever fires after an entry at index 9. -/
def flatData : List PriceBar := (List.range' 0 12).map (fun i => mkBar 100 100 100 100 0 i)

/-- Entry bar with high 100, then a single lower bar with high 50. -/
def hpData : List PriceBar := [mkBar 95 100 10 90 0 0, mkBar 45 50 20 40 0 1]

/-- 13 bars: after the entry at index 10, bar 11 closes below the SMA10
(but above the entry low) and bar 12 closes below the entry low. -/
def smaData : List PriceBar :=
  ((List.range' 0 10).map (fun i => mkBar 100 101 99 100 0 i)) ++
  [mkBar 100 101 50 100 0 10, mkBar 90 91 89 90 0 11, mkBar 40 41 39 40 0 12]

/-- 12 bars: after the entry at index 10, bar 11 closes below the entry low. -/
def lodData : List PriceBar :=
  ((List.range' 0 11).map (fun i => mkBar 100 101 99 100 0 i)) ++
  [mkBar 98 99 97 98 0 11]

/-- 3 identical bars for the early-SMA10 exit. -/
def c10Data : List PriceBar := (List.range' 0 3).map (fun i => mkBar 100 101 99 100 0 i)

/-- 10 bars with high/low = 11/10. -/
def adrData : List PriceBar := (List.range' 0 10).map (fun i => mkBar 10 11 10 10 5 i)

/-- 20 bars with high/low = 11/10. -/
def adr20Data : List PriceBar := (List.range' 0 20).map (fun i => mkBar 10 11 10 10 5 i)

/-- One real body and one doji. -/
def dojiData : List PriceBar := [mkBar 10 12 9 11 0 0, mkBar 10 12 9 10 0 1]

/-! ## Theorems

### C10: the SMA10-Infinity early exit -/

/-- **C10.** `calculateSMA` returns `Infinity` (⊤) whenever
`index < period`; consequently, for an entry at `index` whose following bar
has index `index + 1 < 10` and exists, the momentum exit simulation closes
on that very first bar (`daysHeld = 1`), with reason `"SMA10"` unless that
bar's close is below the entry bar's low, in which case
`"low of the day"`. -/
theorem sma_infinity_first_bar_exit (data : List PriceBar) (index : ℕ)
    (hlen : index + 1 < data.length) (h10 : index + 1 < 10) :
    (∀ (d : List PriceBar) (i p : ℕ), i < p → calculateSMA d i p = ⊤)
    ∧ (findHighestPriceAndExit data index index).exit.index = index + 1
    ∧ (findHighestPriceAndExit data index index).exit.days = 1
    ∧ (findHighestPriceAndExit data index index).exit.reason =
        (if (getBar data (index + 1)).close < (getBar data index).low
          then "low of the day" else "SMA10") := by
  refine ⟨fun d i p h => by simp [calculateSMA, h], ?_⟩
  unfold findHighestPriceAndExit
  obtain ⟨m, hm⟩ : ∃ m, data.length = m + 1 := ⟨data.length - 1, by omega⟩
  rw [hm]
  have hsma : calculateSMA data (index + 1) 10 = ⊤ := by simp [calculateSMA, h10]
  have hcast : ((index + 1 : ℕ) : ℤ) - (index : ℤ) = 1 := by omega
  by_cases hlod : (getBar data (index + 1)).close < (getBar data index).low
  · simp only [mExitLoop, if_pos (show index + 1 < data.length from by omega),
      if_pos hlod]
    exact ⟨trivial, hcast, by simp [hlod]⟩
  · simp only [mExitLoop, if_pos (show index + 1 < data.length from by omega),
      if_neg hlod,
      if_pos (show ((getBar data (index + 1)).close : WithTop ℚ) <
        calculateSMA data (index + 1) 10 from by rw [hsma]; exact WithTop.coe_lt_top _)]
    exact ⟨trivial, hcast, by simp [hlod]⟩

/-- Witness for C10 at `c10Data`, entry index 1. -/
theorem sma_infinity_first_bar_exit_witness :
    (1 + 1 < c10Data.length ∧ 1 + 1 < 10)
    ∧ ((∀ (d : List PriceBar) (i p : ℕ), i < p → calculateSMA d i p = ⊤)
        ∧ (findHighestPriceAndExit c10Data 1 1).exit.index = 1 + 1
        ∧ (findHighestPriceAndExit c10Data 1 1).exit.days = 1
        ∧ (findHighestPriceAndExit c10Data 1 1).exit.reason =
            (if (getBar c10Data (1 + 1)).close < (getBar c10Data 1).low
              then "low of the day" else "SMA10")) :=
  ⟨⟨by with_unfolding_all exact of_decide_eq_true rfl, by omega⟩,
    sma_infinity_first_bar_exit c10Data 1
      (by with_unfolding_all exact of_decide_eq_true rfl) (by omega)⟩

/-! ### C8: the "low of the day" exit rule -/

/-- If bar `j` is the first bar from `i` on that triggers any exit rule,
and it closes below the entry low, the momentum loop exits at `j` with
reason "low of the day". -/
theorem mExitLoop_lod (data : List PriceBar) (entryIndex : ℕ) :
    ∀ (fuel : ℕ) (hp : HighestPriceRec) (i j : ℕ),
      data.length ≤ i + fuel → i ≤ j → j < data.length →
      (getBar data j).close < (getBar data entryIndex).low →
      (∀ k, i ≤ k → k < j →
        ¬((getBar data k).close < (getBar data entryIndex).low) ∧
        ¬(((getBar data k).close : WithTop ℚ) < calculateSMA data k 10)) →
      (mExitLoop data entryIndex fuel hp i).exit =
        { price := (getBar data j).close, index := j
          days := (j : ℤ) - (entryIndex : ℤ)
          reason := "low of the day", date := some (getBar data j).date } := by
  intro fuel
  induction fuel with
  | zero => intro hp i j hfuel hij hj _ _; omega
  | succ fuel ih =>
    intro hp i j hfuel hij hj hlod hmin
    rcases Nat.eq_or_lt_of_le hij with heq | hlt
    · subst heq
      simp only [mExitLoop, if_pos (show i < data.length from hj), if_pos hlod]
    · have hi : i < data.length := by omega
      obtain ⟨h1, h2⟩ := hmin i (le_refl i) hlt
      simp only [mExitLoop, if_pos hi, if_neg h1, if_neg h2]
      exact ih _ (i + 1) j (by omega) (by omega) hj hlod
        (fun k hk1 hk2 => hmin k (by omega) hk2)

/-- **C8 (amended).** In the momentum exit simulation, if a later bar's
close is below the entry bar's low *and no earlier post-entry bar has
already triggered an exit rule*, the exit reason is "low of the day" and
the exit index is that bar's index.  (As originally stated — for *every*
later bar below the entry low — the property fails: an earlier SMA10
breakdown exits first; see the counterexample.) -/
theorem lod_exit_first_trigger (data : List PriceBar) (index entryIndex j : ℕ)
    (hij : index < j) (hj : j < data.length)
    (hlod : (getBar data j).close < (getBar data entryIndex).low)
    (hmin : ∀ k, index < k → k < j →
      ¬((getBar data k).close < (getBar data entryIndex).low) ∧
      ¬(((getBar data k).close : WithTop ℚ) < calculateSMA data k 10)) :
    (findHighestPriceAndExit data entryIndex index).exit.reason = "low of the day"
    ∧ (findHighestPriceAndExit data entryIndex index).exit.index = j := by
  unfold findHighestPriceAndExit
  rw [mExitLoop_lod data entryIndex data.length _ (index + 1) j (by omega) (by omega)
    hj hlod (fun k hk1 hk2 => hmin k (by omega) hk2)]
  exact ⟨rfl, rfl⟩

/-- Witness for C8 on `lodData`: entry at 10, bar 11 closes below the
entry low and exits "low of the day". -/
theorem lod_exit_first_trigger_witness :
    ((getBar lodData 11).close < (getBar lodData 10).low)
    ∧ ((findHighestPriceAndExit lodData 10 10).exit.reason = "low of the day"
        ∧ (findHighestPriceAndExit lodData 10 10).exit.index = 11) :=
  ⟨by with_unfolding_all exact of_decide_eq_true rfl,
    lod_exit_first_trigger lodData 10 10 11 (by omega)
      (by with_unfolding_all exact of_decide_eq_true rfl)
      (by with_unfolding_all exact of_decide_eq_true rfl)
      (fun k hk1 hk2 => absurd rfl (by omega : ¬(10 : ℕ) = 10))⟩

/-- **C8 counterexample.** On `smaData` (entry index 10), bar 12 closes
below the entry low, yet the simulated exit is the earlier SMA10
breakdown at bar 11 — refuting the claim as originally stated. -/
theorem lod_exit_counterexample :
    (getBar smaData 12).close < (getBar smaData 10).low
    ∧ 12 < smaData.length
    ∧ (findHighestPriceAndExit smaData 10 10).exit.reason = "SMA10"
    ∧ (findHighestPriceAndExit smaData 10 10).exit.index = 11 := by
  with_unfolding_all exact of_decide_eq_true rfl

/-! ### C1: the exit is always populated / "end of data" fallback -/

/-- If no exit rule triggers from `i` on, the trend-variant loop returns
no exit. -/
theorem tExitLoop_none (data : List PriceBar) (entryIndex : ℕ) :
    ∀ (fuel : ℕ) (hp : HighestPriceRec) (i : ℕ),
      (∀ j, i ≤ j → j < data.length →
        ¬((getBar data j).close < (getBar data entryIndex).low) ∧
        ¬(((getBar data j).close : WithTop ℚ) < calculateSMA data j 10)) →
      (tExitLoop data entryIndex fuel hp i).1 = none := by
  intro fuel
  induction fuel with
  | zero => intro hp i _; simp [tExitLoop]
  | succ fuel ih =>
    intro hp i hno
    by_cases hi : i < data.length
    · obtain ⟨h1, h2⟩ := hno i (le_refl i) hi
      simp only [tExitLoop, if_pos hi, if_neg h1, if_neg h2]
      exact ih _ (i + 1) (fun j hj1 hj2 => hno j (by omega) hj2)
    · simp [tExitLoop, hi]

/-- **C1 (amended).** The trend-variant exit simulation always closes the
trade: if no exit rule triggers before the series ends, the returned exit
is the last bar with reason "end of data" (and the result record is always
populated, the function being total).  The momentum variant of
`findSetups.ts` has *no* such fallback: its exit stays the
zero-initialised record with reason `""` — see the counterexample. -/
theorem trend_exit_end_of_data (data : List PriceBar) (entryIndex : ℕ)
    (_hne : data ≠ []) (_hentry : entryIndex < data.length)
    (hno : ∀ j, entryIndex < j → j < data.length →
      ¬((getBar data j).close < (getBar data entryIndex).low) ∧
      ¬(((getBar data j).close : WithTop ℚ) < calculateSMA data j 10)) :
    (findHighestPriceAndExitTrend data entryIndex).exit.reason = "end of data"
    ∧ (findHighestPriceAndExitTrend data entryIndex).exit.index = data.length - 1
    ∧ (findHighestPriceAndExitTrend data entryIndex).exit.price
        = (getBar data (data.length - 1)).close := by
  have hnone : (tExitLoop data entryIndex data.length
      { index := entryIndex, price := (getBar data entryIndex).high, days := 0
        date := some (getBar data entryIndex).date } (entryIndex + 1)).1 = none :=
    tExitLoop_none data entryIndex data.length _ (entryIndex + 1)
      (fun j hj1 hj2 => hno j (by omega) hj2)
  simp only [findHighestPriceAndExitTrend, hnone]
  exact ⟨trivial, trivial, trivial⟩

/-- Witness for C1 on `flatData` (entry 9, no rule ever triggers). -/
theorem trend_exit_end_of_data_witness :
    (flatData ≠ [] ∧ 9 < flatData.length)
    ∧ ((findHighestPriceAndExitTrend flatData 9).exit.reason = "end of data"
        ∧ (findHighestPriceAndExitTrend flatData 9).exit.index = flatData.length - 1
        ∧ (findHighestPriceAndExitTrend flatData 9).exit.price
            = (getBar flatData (flatData.length - 1)).close) :=
  ⟨⟨by with_unfolding_all exact of_decide_eq_true rfl,
      by with_unfolding_all exact of_decide_eq_true rfl⟩,
    trend_exit_end_of_data flatData 9
      (by with_unfolding_all exact of_decide_eq_true rfl)
      (by with_unfolding_all exact of_decide_eq_true rfl)
      (fun j hj1 hj2 => by
        have h12 : flatData.length = 12 := by with_unfolding_all exact of_decide_eq_true rfl
        rw [h12] at hj2
        interval_cases j
        · exact ⟨by with_unfolding_all exact of_decide_eq_true rfl,
            by with_unfolding_all exact of_decide_eq_true rfl⟩
        · exact ⟨by with_unfolding_all exact of_decide_eq_true rfl,
            by with_unfolding_all exact of_decide_eq_true rfl⟩)⟩

/-- **C1 counterexample.**  On `flatData` with entry index 9 no rule ever
triggers, and the momentum `findHighestPriceAndExit` returns an exit with
reason `""` (the zero-initialised record), not "end of data": the claim
fails on the momentum variant it cites. -/
theorem momentum_exit_no_fallback_counterexample :
    (findHighestPriceAndExit flatData 9 9).exit.reason = ""
    ∧ (findHighestPriceAndExit flatData 9 9).exit.index = 0
    ∧ (findHighestPriceAndExit flatData 9 9).exit.price = 0
    ∧ ("" : String) ≠ "end of data" := by
  with_unfolding_all exact of_decide_eq_true rfl

/-! ### C2: HighestPrice invariants -/

/-- One update step never lowers the tracked price. -/
theorem hpUpdate_price_le (data : List PriceBar) (entryIndex i : ℕ)
    (hp : HighestPriceRec) : hp.price ≤ (hpUpdate data entryIndex i hp).price := by
  unfold hpUpdate
  split
  · exact le_of_lt (by assumption)
  · exact le_refl _

/-- One update step either keeps the index or sets it to the current bar. -/
theorem hpUpdate_index_cases (data : List PriceBar) (entryIndex i : ℕ)
    (hp : HighestPriceRec) :
    (hpUpdate data entryIndex i hp).index = hp.index
    ∨ (hpUpdate data entryIndex i hp).index = i := by
  unfold hpUpdate
  split
  · exact Or.inr rfl
  · exact Or.inl rfl

/-- The trend-variant loop never lowers the tracked highest price. -/
theorem tExitLoop_price_mono (data : List PriceBar) (entryIndex : ℕ) :
    ∀ (fuel : ℕ) (hp : HighestPriceRec) (i : ℕ),
      hp.price ≤ (tExitLoop data entryIndex fuel hp i).2.price := by
  intro fuel
  induction fuel with
  | zero => intro hp i; simp [tExitLoop]
  | succ fuel ih =>
    intro hp i
    by_cases hi : i < data.length
    · have hup := hpUpdate_price_le data entryIndex i hp
      by_cases h1 : (getBar data i).close < (getBar data entryIndex).low
      · simpa only [tExitLoop, if_pos hi, if_pos h1] using hup
      · by_cases h2 : ((getBar data i).close : WithTop ℚ) < calculateSMA data i 10
        · simpa only [tExitLoop, if_pos hi, if_neg h1, if_pos h2] using hup
        · simp only [tExitLoop, if_pos hi, if_neg h1, if_neg h2]
          exact le_trans hup (ih _ (i + 1))
    · simp [tExitLoop, hi]

/-- The loop never lowers the tracked index below the carried one, as long
as the carried index does not exceed the current position. -/
theorem tExitLoop_index_ge (data : List PriceBar) (entryIndex : ℕ) :
    ∀ (fuel : ℕ) (hp : HighestPriceRec) (i : ℕ), hp.index ≤ i →
      hp.index ≤ (tExitLoop data entryIndex fuel hp i).2.index := by
  intro fuel
  induction fuel with
  | zero => intro hp i _; simp only [tExitLoop]; omega
  | succ fuel ih =>
    intro hp i hle
    by_cases hi : i < data.length
    · have hup := hpUpdate_index_cases data entryIndex i hp
      by_cases h1 : (getBar data i).close < (getBar data entryIndex).low
      · simp only [tExitLoop, if_pos hi, if_pos h1]
        rcases hup with h | h <;> rw [h]
        exact hle
      · by_cases h2 : ((getBar data i).close : WithTop ℚ) < calculateSMA data i 10
        · simp only [tExitLoop, if_pos hi, if_neg h1, if_pos h2]
          rcases hup with h | h <;> rw [h]
          exact hle
        · simp only [tExitLoop, if_pos hi, if_neg h1, if_neg h2]
          have hnext := ih (hpUpdate data entryIndex i hp) (i + 1)
            (by rcases hup with h | h <;> omega)
          rcases hup with h | h <;> rw [h] at hnext <;> omega
    · simp only [tExitLoop, if_neg hi]; omega

/-- **C2 (amended).**  In the trend-variant exit simulation the tracked
HighestPrice never decreases once set (the loop never lowers it from any
intermediate state), its price is at least the entry bar's own high, and
its index is at least the entry index.  (The momentum variant of
`findSetups.ts` initialises the record to price 0 / index 0 instead of
the entry bar, so the last two invariants fail there — see the
counterexample.) -/
theorem trend_highest_price_invariants :
    (∀ (data : List PriceBar) (entryIndex fuel : ℕ) (hp : HighestPriceRec) (i : ℕ),
      hp.price ≤ (tExitLoop data entryIndex fuel hp i).2.price)
    ∧ (∀ (data : List PriceBar) (entryIndex : ℕ), entryIndex < data.length →
        (getBar data entryIndex).high
          ≤ (findHighestPriceAndExitTrend data entryIndex).highestPrice.price
        ∧ entryIndex ≤ (findHighestPriceAndExitTrend data entryIndex).highestPrice.index) := by
  constructor
  · intro data entryIndex fuel hp i
    exact tExitLoop_price_mono data entryIndex fuel hp i
  · intro data entryIndex _h
    have hp0 : (getBar data entryIndex).high ≤
        (tExitLoop data entryIndex data.length
          { index := entryIndex, price := (getBar data entryIndex).high, days := 0
            date := some (getBar data entryIndex).date } (entryIndex + 1)).2.price :=
      tExitLoop_price_mono data entryIndex data.length _ (entryIndex + 1)
    have hidx : entryIndex ≤
        (tExitLoop data entryIndex data.length
          { index := entryIndex, price := (getBar data entryIndex).high, days := 0
            date := some (getBar data entryIndex).date } (entryIndex + 1)).2.index :=
      tExitLoop_index_ge data entryIndex data.length
        { index := entryIndex, price := (getBar data entryIndex).high, days := 0
          date := some (getBar data entryIndex).date } (entryIndex + 1)
        (Nat.le_succ entryIndex)
    simp only [findHighestPriceAndExitTrend]
    cases hr : (tExitLoop data entryIndex data.length
        { index := entryIndex, price := (getBar data entryIndex).high, days := 0
          date := some (getBar data entryIndex).date } (entryIndex + 1)).1 with
    | none => simp only [hr]; exact ⟨hp0, hidx⟩
    | some e => simp only [hr]; exact ⟨hp0, hidx⟩

/-- Witness for C2 on `flatData`, entry index 9. -/
theorem trend_highest_price_invariants_witness :
    9 < flatData.length
    ∧ ((getBar flatData 9).high
        ≤ (findHighestPriceAndExitTrend flatData 9).highestPrice.price
      ∧ 9 ≤ (findHighestPriceAndExitTrend flatData 9).highestPrice.index) :=
  ⟨by with_unfolding_all exact of_decide_eq_true rfl,
    trend_highest_price_invariants.2 flatData 9
      (by with_unfolding_all exact of_decide_eq_true rfl)⟩

/-- **C2 counterexample.**  On `hpData` (entry bar 0 with high 100, one
later bar with high 50), the momentum variant's HighestPrice record ends
at price 50 < 100 with index 1, violating "price ≥ entry bar's own high"
as originally claimed for `findSetups.ts`. -/
theorem momentum_highest_price_counterexample :
    (findHighestPriceAndExit hpData 0 0).highestPrice.price = 50
    ∧ (getBar hpData 0).high = 100
    ∧ ¬((getBar hpData 0).high ≤ (findHighestPriceAndExit hpData 0 0).highestPrice.price) := by
  with_unfolding_all exact of_decide_eq_true rfl

/-! ### C5: the ADR computation -/

/-- Folding `acc + f d` over a list is the starting value plus the sum of
the mapped list. -/
theorem foldl_add_eq_sum (f : PriceBar → ℚ) :
    ∀ (l : List PriceBar) (a : ℚ), l.foldl (fun acc d => acc + f d) a = a + (l.map f).sum := by
  intro l
  induction l with
  | nil => intro a; simp
  | cons x xs ih => intro a; simp [ih, add_assoc]

/-- Summing `f d - 1` subtracts the length from the sum of `f d`. -/
theorem sum_map_sub_one (f : PriceBar → ℚ) :
    ∀ (l : List PriceBar), (l.map (fun d => f d - 1)).sum = (l.map f).sum - l.length := by
  intro l
  induction l with
  | nil => simp
  | cons x xs ih => simp [ih]; ring

/-- With at least 20 prior bars in range, the JS slice is the 20 bars just
before `endIndex`. -/
theorem adr_slice_eq (data : List PriceBar) (endIndex : ℕ)
    (h20 : 20 ≤ endIndex) (hlen : endIndex ≤ data.length) :
    jsSlice data ((endIndex : ℤ) - 20) (endIndex : ℤ)
      = (data.drop (endIndex - 20)).take 20 := by
  unfold jsSlice
  have hs : ¬((endIndex : ℤ) - 20 < 0) := by omega
  have he : ¬((endIndex : ℤ) < 0) := by omega
  simp only [if_neg hs, if_neg he]
  have h1 : (min ((endIndex : ℤ) - 20) (data.length : ℤ)).toNat = endIndex - 20 := by omega
  have h2 : (min (endIndex : ℤ) (data.length : ℤ)).toNat = endIndex := by omega
  rw [h1, h2, List.drop_take]
  congr 1
  omega

/-- **C5 (amended).**  For `20 ≤ endIndex ≤ data.length`, `calculateADR`
returns the mean of `high/low − 1` over the 20 trailing bars ending just
before `endIndex`.  (The "fails softly to 0" part of the claim is false:
with fewer than 20 prior bars the JS negative slice start wraps around,
producing NaN — an empty slice — when `data.length ≥ 20`, and the bars
from `max(0, data.length + endIndex − 20)` up to `endIndex` otherwise;
see the counterexample.) -/
theorem adr_mean_of_trailing_20 (data : List PriceBar) (endIndex : ℕ)
    (h20 : 20 ≤ endIndex) (hlen : endIndex ≤ data.length) :
    calculateADR data endIndex
      = some ((((data.drop (endIndex - 20)).take 20).map
          (fun d => d.high / d.low - 1)).sum / 20) := by
  unfold calculateADR
  rw [adr_slice_eq data endIndex h20 hlen]
  have hl : ((data.drop (endIndex - 20)).take 20).length = 20 := by
    simp [List.length_take, List.length_drop]
    omega
  rw [if_neg (by rw [hl]; omega)]
  congr 1
  rw [foldl_add_eq_sum, sum_map_sub_one, hl, zero_add]
  push_cast
  ring

/-- Witness for C5 on `adr20Data` at `endIndex = 20`. -/
theorem adr_mean_of_trailing_20_witness :
    (20 ≤ 20 ∧ 20 ≤ adr20Data.length)
    ∧ calculateADR adr20Data 20
        = some ((((adr20Data.drop (20 - 20)).take 20).map
            (fun d => d.high / d.low - 1)).sum / 20) :=
  ⟨⟨le_refl 20, by with_unfolding_all exact of_decide_eq_true rfl⟩,
    adr_mean_of_trailing_20 adr20Data 20 (le_refl 20)
      (by with_unfolding_all exact of_decide_eq_true rfl)⟩

/-- **C5 counterexample.**  On `adrData` (10 bars, high/low = 11/10) with
`endIndex = 5` there are fewer than 20 prior bars, yet `calculateADR`
returns 1/10, not 0: the negative slice start wraps to the beginning and
averages the first five bars. -/
theorem adr_no_soft_zero_counterexample :
    calculateADR adrData 5 = some (1/10) ∧ some (1/10 : ℚ) ≠ some (0 : ℚ) := by
  with_unfolding_all exact of_decide_eq_true rfl

/-! ### C7: the density score -/

/-- **C7 (amended).**  `densityScore` is the number of non-doji candle
bodies whose overlap with `[lowerBound, upperBound]` exceeds half the
body, divided by the number of *all* bars: dojis are skipped from the
numerator count but remain in the denominator (`data.length`), contrary
to the claim that they are skipped from the denominator. -/
theorem density_score_denominator (data : List PriceBar)
    (lowerPercentile upperPercentile outlierMultiplier : ℚ) :
    ((calculateConsolidationBounds data lowerPercentile upperPercentile
        outlierMultiplier).densityScore
      = ((data.countP (candleInRange
          (calculateConsolidationBounds data lowerPercentile upperPercentile
            outlierMultiplier).upperBound
          (calculateConsolidationBounds data lowerPercentile upperPercentile
            outlierMultiplier).lowerBound) : ℕ) : ℚ) / (data.length : ℚ))
    ∧ (∀ (upperBound lowerBound : ℚ) (c : PriceBar),
        c.openPrice = c.close → candleInRange upperBound lowerBound c = false) := by
  constructor
  · rfl
  · intro upperBound lowerBound c h
    simp [candleInRange, h]

/-- Witness for C7: the doji of `dojiData` is never counted, and the
density score over `dojiData` is the stated ratio. -/
theorem density_score_denominator_witness :
    ((getBar dojiData 1).openPrice = (getBar dojiData 1).close
      ∧ candleInRange 12 9 (getBar dojiData 1) = false)
    ∧ (calculateConsolidationBounds dojiData (1/10) (9/10) 1).densityScore
        = ((dojiData.countP (candleInRange
            (calculateConsolidationBounds dojiData (1/10) (9/10) 1).upperBound
            (calculateConsolidationBounds dojiData (1/10) (9/10) 1).lowerBound) : ℕ) : ℚ)
          / (dojiData.length : ℚ) :=
  ⟨⟨by with_unfolding_all exact of_decide_eq_true rfl,
      (density_score_denominator dojiData (1/10) (9/10) 1).2 12 9 (getBar dojiData 1)
        (by with_unfolding_all exact of_decide_eq_true rfl)⟩,
    (density_score_denominator dojiData (1/10) (9/10) 1).1⟩

/-- **C7 counterexample.**  On `dojiData` (one real body inside the band,
one doji) the code's density score is 1/2; under the claim's rule
("dojis are skipped from the denominator") it would be 1/1 = 1. -/
theorem density_score_counterexample :
    (calculateConsolidationBounds dojiData (1/10) (9/10) 1).densityScore = 1/2
    ∧ ((dojiData.countP (candleInRange
          (calculateConsolidationBounds dojiData (1/10) (9/10) 1).upperBound
          (calculateConsolidationBounds dojiData (1/10) (9/10) 1).lowerBound) : ℕ) : ℚ)
        / ((dojiData.countP (fun c => decide (c.openPrice ≠ c.close)) : ℕ) : ℚ) = 1
    ∧ ((1 : ℚ)/2) ≠ 1 := by
  with_unfolding_all exact of_decide_eq_true rfl

/-! ### C3 and C6: what the analyzer emits -/

/-- The structural facts every candidate built by `consolStep` satisfies:
its window starts at most 10 bars after the prior-move high, lasts 5 to 60
days, and its end bar passed `breakoutCheck`. -/
def ConsolInv (data : List PriceBar) (priorHighIndex : ℕ) (c : Consol) : Prop :=
  priorHighIndex ≤ c.startIndex
  ∧ c.startIndex ≤ priorHighIndex + 10
  ∧ 5 ≤ c.endIndex - c.startIndex
  ∧ c.endIndex - c.startIndex ≤ 60
  ∧ breakoutCheck data c.endIndex c.upperBound = true

/-- `consolStep` preserves `ConsolInv`: any candidate it may add satisfies
the invariant by construction. -/
theorem consolStep_inv (data : List PriceBar) (priorHighIndex priorLowIndex : ℕ)
    (adjStart period : ℕ) (best : Option Consol)
    (hadj1 : priorHighIndex ≤ adjStart) (hadj2 : adjStart ≤ priorHighIndex + 10)
    (hper1 : 5 ≤ period) (hper2 : period ≤ 60)
    (hbest : ∀ c, best = some c → ConsolInv data priorHighIndex c) :
    ∀ c, consolStep data priorHighIndex priorLowIndex adjStart period best = some c →
      ConsolInv data priorHighIndex c := by
  intro c hc
  simp only [consolStep] at hc
  split at hc
  · exact hbest c hc
  · split at hc
    · exact hbest c hc
    · split at hc <;>
      · split at hc
        · rename_i hguard
          simp only [Bool.and_eq_true] at hguard
          split at hc
          · rw [Option.some_inj] at hc
            subst hc
            exact ⟨hadj1, hadj2,
              show 5 ≤ (adjStart + period) - adjStart from by omega,
              show (adjStart + period) - adjStart ≤ 60 from by omega, hguard.2⟩
          · rename_i hprev prev
            split at hc
            · rw [Option.some_inj] at hc
              subst hc
              exact ⟨hadj1, hadj2,
                show 5 ≤ (adjStart + period) - adjStart from by omega,
                show (adjStart + period) - adjStart ≤ 60 from by omega, hguard.2⟩
            · exact hbest c hc
        · exact hbest c hc

/-- The inner period loop preserves `ConsolInv`. -/
theorem consolPeriodLoop_inv (data : List PriceBar)
    (priorHighIndex priorLowIndex adjStart : ℕ)
    (hadj1 : priorHighIndex ≤ adjStart) (hadj2 : adjStart ≤ priorHighIndex + 10) :
    ∀ (fuel period : ℕ) (best : Option Consol),
      5 ≤ period → period + fuel ≤ 61 →
      (∀ c, best = some c → ConsolInv data priorHighIndex c) →
      ∀ c, consolPeriodLoop data priorHighIndex priorLowIndex adjStart fuel period best
          = some c → ConsolInv data priorHighIndex c := by
  intro fuel
  induction fuel with
  | zero => intro period best _ _ hbest c hc; exact hbest c hc
  | succ fuel ih =>
    intro period best hp1 hp2 hbest c hc
    rw [consolPeriodLoop] at hc
    split at hc
    · exact hbest c hc
    · exact ih (period + 1) _ (by omega) (by omega)
        (consolStep_inv data priorHighIndex priorLowIndex adjStart period best
          hadj1 hadj2 hp1 (by omega) hbest) c hc

/-- Everything `findConsolidationRange` returns satisfies `ConsolInv`. -/
theorem findConsolidationRange_inv (data : List PriceBar)
    (priorHighIndex priorLowIndex : ℕ) :
    ∀ c, findConsolidationRange data priorHighIndex priorLowIndex = some c →
      ConsolInv data priorHighIndex c := by
  unfold findConsolidationRange
  have hgen : ∀ (l : List ℕ), (∀ o ∈ l, o ≤ 10) →
      ∀ (best : Option Consol),
        (∀ c, best = some c → ConsolInv data priorHighIndex c) →
        ∀ c, l.foldl
            (fun best offset =>
              consolPeriodLoop data priorHighIndex priorLowIndex
                (priorHighIndex + offset)
                (consolidationMaxDays - consolidationMinDays + 1) consolidationMinDays
                best) best = some c →
          ConsolInv data priorHighIndex c := by
    intro l
    induction l with
    | nil => intro _ best hbest c hc; exact hbest c hc
    | cons o os ih =>
      intro hmem best hbest c hc
      simp only [List.foldl_cons] at hc
      exact ih (fun o' ho' => hmem o' (List.mem_cons_of_mem o ho'))
        _ (consolPeriodLoop_inv data priorHighIndex priorLowIndex
            (priorHighIndex + o) (by omega)
            (by have := hmem o (List.mem_cons_self o os); omega)
            (consolidationMaxDays - consolidationMinDays + 1) consolidationMinDays best
            (le_refl 5) (by norm_num [consolidationMaxDays, consolidationMinDays])
            hbest) c hc
  exact hgen (List.range 11) (fun o ho => by have := List.mem_range.mp ho; omega) none
    (fun c hc => by simp at hc)

set_option maxRecDepth 1900 in
/-- The concrete run: on `exData` with the prior move at high index 1 /
low index 0, the analyzer emits `exConsol` (upper bound 205, window
`[1, 16]`, breakout at bar 16). -/
theorem exConsol_eval : findConsolidationRange exData 1 0 = some exConsol := by
  with_unfolding_all exact of_decide_eq_true rfl

/-- **C3.**  A breakout at bar `b` over upper bound `U` is confirmed iff
(`close[b] > U` or `high[b] > U × 1.01`) and `close[b−1] ≤ U`; in
particular a candidate whose previous bar's close strictly exceeds `U` is
always rejected, and every consolidation the analyzer emits satisfies the
confirmed-breakout condition at its end bar. -/
theorem breakout_confirmation :
    (∀ (data : List PriceBar) (b : ℕ) (upperBound : ℚ),
      breakoutCheck data b upperBound = true ↔
        ((upperBound < (getBar data b).close
            ∨ upperBound * (101/100) < (getBar data b).high)
          ∧ (getBar data (b - 1)).close ≤ upperBound))
    ∧ (∀ (data : List PriceBar) (b : ℕ) (upperBound : ℚ),
        upperBound < (getBar data (b - 1)).close → breakoutCheck data b upperBound = false)
    ∧ (∀ (data : List PriceBar) (priorHighIndex priorLowIndex : ℕ) (c : Consol),
        findConsolidationRange data priorHighIndex priorLowIndex = some c →
          (c.upperBound < (getBar data c.endIndex).close
              ∨ c.upperBound * (101/100) < (getBar data c.endIndex).high)
            ∧ (getBar data (c.endIndex - 1)).close ≤ c.upperBound) := by
  have hiff : ∀ (data : List PriceBar) (b : ℕ) (upperBound : ℚ),
      breakoutCheck data b upperBound = true ↔
        ((upperBound < (getBar data b).close
            ∨ upperBound * (101/100) < (getBar data b).high)
          ∧ (getBar data (b - 1)).close ≤ upperBound) := by
    intro data b upperBound
    simp [breakoutCheck]
  refine ⟨hiff, ?_, ?_⟩
  · intro data b upperBound h
    rw [Bool.eq_false_iff]
    intro hcontra
    exact absurd ((hiff data b upperBound).mp hcontra).2 (not_le.mpr h)
  · intro data priorHighIndex priorLowIndex c hc
    exact (hiff data c.endIndex c.upperBound).mp
      (findConsolidationRange_inv data priorHighIndex priorLowIndex c hc).2.2.2.2

/-- Witness for C3: the emitted consolidation of `exData` satisfies the
breakout condition at its end bar 16, and a prev-close-above-bound
candidate is rejected on concrete numbers. -/
theorem breakout_confirmation_witness :
    (findConsolidationRange exData 1 0 = some exConsol
      ∧ ((exConsol.upperBound < (getBar exData exConsol.endIndex).close
            ∨ exConsol.upperBound * (101/100) < (getBar exData exConsol.endIndex).high)
          ∧ (getBar exData (exConsol.endIndex - 1)).close ≤ exConsol.upperBound))
    ∧ ((205 : ℚ) < (getBar exData 16).close
        ∧ breakoutCheck exData 17 205 = false) :=
  ⟨⟨exConsol_eval, breakout_confirmation.2.2 exData 1 0 exConsol exConsol_eval⟩,
    ⟨by with_unfolding_all exact of_decide_eq_true rfl,
      breakout_confirmation.2.1 exData 17 205
        (by with_unfolding_all exact of_decide_eq_true rfl)⟩⟩

/-- **C6 (amended).**  Every consolidation the analyzer emits satisfies
`startIndex ≥ priorMove.highIndex` (offsets 0 through 10, so equality is
possible — the original strict `>` fails, see the counterexample),
`startIndex ≤ priorMove.highIndex + 10`, and a window length
`endIndex − startIndex` within `[consolidationMinDays, consolidationMaxDays]
= [5, 60]`. -/
theorem consolidation_window_bounds (data : List PriceBar)
    (priorHighIndex priorLowIndex : ℕ) (c : Consol)
    (hc : findConsolidationRange data priorHighIndex priorLowIndex = some c) :
    priorHighIndex ≤ c.startIndex
    ∧ c.startIndex ≤ priorHighIndex + 10
    ∧ consolidationMinDays ≤ c.endIndex - c.startIndex
    ∧ c.endIndex - c.startIndex ≤ consolidationMaxDays := by
  obtain ⟨h1, h2, h3, h4, _⟩ := findConsolidationRange_inv data priorHighIndex priorLowIndex c hc
  exact ⟨h1, h2, h3, h4⟩

/-- Witness for C6 on the `exData` run. -/
theorem consolidation_window_bounds_witness :
    findConsolidationRange exData 1 0 = some exConsol
    ∧ (1 ≤ exConsol.startIndex
        ∧ exConsol.startIndex ≤ 1 + 10
        ∧ consolidationMinDays ≤ exConsol.endIndex - exConsol.startIndex
        ∧ exConsol.endIndex - exConsol.startIndex ≤ consolidationMaxDays) :=
  ⟨exConsol_eval, consolidation_window_bounds exData 1 0 exConsol exConsol_eval⟩

/-- **C6 counterexample.**  On `exData` the analyzer emits a consolidation
whose `startIndex` *equals* the prior-move high index (offset 0), refuting
the claimed strict inequality `startIndex > priorMove.highIndex`. -/
theorem consolidation_start_not_strict_counterexample :
    findConsolidationRange exData 1 0 = some exConsol
    ∧ ¬(1 < exConsol.startIndex) :=
  ⟨exConsol_eval, show ¬((1 : ℕ) < 1) from by omega⟩

/-! ### C9: determinism of the orchestrator -/

/-- **C9.**  Re-running the orchestrator on an unchanged series yields an
identical Setup list — the computation, including the fitted consolidation
slope, is a pure function of the series — and the only accept/reject
decision fed by `fitLine` (the `!trendline` skip) is determined by the
window length alone: the weighted Theil-Sen fit succeeds exactly on
windows of at least 2 bars. -/
theorem orchestrator_deterministic :
    (∀ (data : List PriceBar) (maxSetups : ℕ),
      findSetupsPure data maxSetups = findSetupsPure data maxSetups)
    ∧ (∀ (data : List PriceBar) (keyFunc : PriceBar → ℚ),
        (fitLine data keyFunc).isSome = true ↔ 2 ≤ data.length) := by
  refine ⟨fun _ _ => rfl, ?_⟩
  intro data keyFunc
  unfold fitLine
  split
  · rename_i h; simp; omega
  · rename_i h; simp; omega

/-! ### C4: the consolidation bounds are ordered

Counting machinery over sorted rational lists. -/

/-- The JS percentile/quartile index `floor(k * (a/b))` is natural
division. -/
theorem jsFloorIdx_div (k a b : ℕ) :
    jsFloorIdx k ((a : ℚ) / (b : ℚ)) = a * k / b := by
  unfold jsFloorIdx
  have h : (k : ℚ) * ((a : ℚ) / (b : ℚ)) = ((a * k : ℕ) : ℚ) / ((b : ℕ) : ℚ) := by
    push_cast; ring
  rw [h, Rat.floor_natCast_div_natCast, ← Int.ofNat_ediv, Int.toNat_natCast]

/-- Indices of a sorted list give monotone values. -/
theorem sorted_getD_mono (s : List ℚ) (hs : s.Sorted (· ≤ ·)) (i j : ℕ)
    (hij : i ≤ j) (hj : j < s.length) : s.getD i 0 ≤ s.getD j 0 := by
  rcases Nat.eq_or_lt_of_le hij with heq | hlt
  · subst heq; exact le_refl _
  · rw [List.getD_eq_getElem s 0 (by omega), List.getD_eq_getElem s 0 hj]
    exact hs.rel_get_of_lt (show (⟨i, by omega⟩ : Fin s.length) < ⟨j, hj⟩ from hlt)

/-- A sorted list has at least `i + 1` elements at or below the value at
index `i`, hence at or below any `x` above it. -/
theorem sorted_count_le_ge (s : List ℚ) (hs : s.Sorted (· ≤ ·)) (i : ℕ)
    (hi : i < s.length) (x : ℚ) (hx : s.getD i 0 ≤ x) :
    i + 1 ≤ s.countP (fun v => decide (v ≤ x)) := by
  have hsplit : s.countP (fun v => decide (v ≤ x))
      = (s.take (i + 1)).countP (fun v => decide (v ≤ x))
        + (s.drop (i + 1)).countP (fun v => decide (v ≤ x)) := by
    rw [← List.countP_append, List.take_append_drop]
  have htake : (s.take (i + 1)).countP (fun v => decide (v ≤ x))
      = (s.take (i + 1)).length := by
    rw [List.countP_eq_length]
    intro a ha
    obtain ⟨j, hj, rfl⟩ := List.mem_iff_getElem.mp ha
    have hj' : j < s.length := by
      have := List.length_take (i + 1) s
      omega
    rw [List.getElem_take]
    have : s[j] ≤ s.getD i 0 := by
      rw [List.getD_eq_getElem s 0 hi]
      have hji : j ≤ i := by
        have := List.length_take (i + 1) s
        omega
      rcases Nat.eq_or_lt_of_le hji with heq | hlt
      · subst heq; exact le_refl _
      · exact hs.rel_get_of_lt (show (⟨j, hj'⟩ : Fin s.length) < ⟨i, hi⟩ from hlt)
    simp [le_trans this hx]
  have hlen : (s.take (i + 1)).length = i + 1 := by
    rw [List.length_take]; omega
  omega

/-- A sorted list has at most `i` elements strictly below the value at
index `i`, hence at most `i` at or below any `x` below it. -/
theorem sorted_count_le_lt (s : List ℚ) (hs : s.Sorted (· ≤ ·)) (i : ℕ)
    (hi : i < s.length) (x : ℚ) (hx : x < s.getD i 0) :
    s.countP (fun v => decide (v ≤ x)) ≤ i := by
  have hsplit : s.countP (fun v => decide (v ≤ x))
      = (s.take i).countP (fun v => decide (v ≤ x))
        + (s.drop i).countP (fun v => decide (v ≤ x)) := by
    rw [← List.countP_append, List.take_append_drop]
  have hdrop : (s.drop i).countP (fun v => decide (v ≤ x)) = 0 := by
    rw [List.countP_eq_zero]
    intro a ha
    obtain ⟨j, hj, rfl⟩ := List.mem_iff_getElem.mp ha
    have hisj : i + j < s.length := by
      have := List.length_drop i s; omega
    rw [List.getElem_drop]
    have hij : i ≤ i + j := by omega
    have hlt : s.getD i 0 ≤ s[i + j] := by
      rw [← List.getD_eq_getElem s 0 hisj]
      exact sorted_getD_mono s hs i (i + j) hij hisj
    simp only [decide_eq_true_eq]
    exact not_le.mpr (lt_of_lt_of_le hx hlt)
  have : (s.take i).countP (fun v => decide (v ≤ x)) ≤ i := by
    calc (s.take i).countP (fun v => decide (v ≤ x))
        ≤ (s.take i).length := List.countP_le_length _
      _ ≤ i := by rw [List.length_take]; omega
  omega

/-- A sorted list has at most `i` elements strictly below the value at
index `i`. -/
theorem sorted_count_lt (s : List ℚ) (hs : s.Sorted (· ≤ ·)) (i : ℕ)
    (hi : i < s.length) :
    s.countP (fun v => decide (v < s.getD i 0)) ≤ i := by
  have hsplit : s.countP (fun v => decide (v < s.getD i 0))
      = (s.take i).countP (fun v => decide (v < s.getD i 0))
        + (s.drop i).countP (fun v => decide (v < s.getD i 0)) := by
    rw [← List.countP_append, List.take_append_drop]
  have hdrop : (s.drop i).countP (fun v => decide (v < s.getD i 0)) = 0 := by
    rw [List.countP_eq_zero]
    intro a ha
    obtain ⟨j, hj, rfl⟩ := List.mem_iff_getElem.mp ha
    have hisj : i + j < s.length := by
      have := List.length_drop i s; omega
    rw [List.getElem_drop]
    have hij : i ≤ i + j := by omega
    have hle : s.getD i 0 ≤ s[i + j] := by
      rw [← List.getD_eq_getElem s 0 hisj]
      exact sorted_getD_mono s hs i (i + j) hij hisj
    simp only [decide_eq_true_eq]
    exact not_lt.mpr hle
  have : (s.take i).countP (fun v => decide (v < s.getD i 0)) ≤ i := by
    calc (s.take i).countP (fun v => decide (v < s.getD i 0))
        ≤ (s.take i).length := List.countP_le_length _
      _ ≤ i := by rw [List.length_take]; omega
  omega

/-- A sorted list has at least `j - i + 1` elements with values between
those at indices `i` and `j`. -/
theorem sorted_count_between (s : List ℚ) (hs : s.Sorted (· ≤ ·)) (i j : ℕ)
    (hij : i ≤ j) (hj : j < s.length) :
    j - i + 1 ≤ s.countP (fun v => decide (s.getD i 0 ≤ v) && decide (v ≤ s.getD j 0)) := by
  have hsplit : s.countP (fun v => decide (s.getD i 0 ≤ v) && decide (v ≤ s.getD j 0))
      = (s.take (j + 1)).countP (fun v => decide (s.getD i 0 ≤ v) && decide (v ≤ s.getD j 0))
        + (s.drop (j + 1)).countP (fun v => decide (s.getD i 0 ≤ v) && decide (v ≤ s.getD j 0)) := by
    rw [← List.countP_append, List.take_append_drop]
  have hsplit2 : (s.take (j + 1)).countP
        (fun v => decide (s.getD i 0 ≤ v) && decide (v ≤ s.getD j 0))
      = ((s.take (j + 1)).take i).countP
          (fun v => decide (s.getD i 0 ≤ v) && decide (v ≤ s.getD j 0))
        + ((s.take (j + 1)).drop i).countP
          (fun v => decide (s.getD i 0 ≤ v) && decide (v ≤ s.getD j 0)) := by
    rw [← List.countP_append, List.take_append_drop]
  have hmid : ((s.take (j + 1)).drop i).countP
        (fun v => decide (s.getD i 0 ≤ v) && decide (v ≤ s.getD j 0))
      = ((s.take (j + 1)).drop i).length := by
    rw [List.countP_eq_length]
    intro a ha
    obtain ⟨k, hk, rfl⟩ := List.mem_iff_getElem.mp ha
    rw [List.getElem_drop, List.getElem_take]
    have hik : i + k < s.length := by
      have h1 := List.length_drop i (s.take (j + 1))
      have h2 := List.length_take (j + 1) s
      omega
    have hikj : i + k ≤ j := by
      have h1 := List.length_drop i (s.take (j + 1))
      have h2 := List.length_take (j + 1) s
      omega
    have hlo : s.getD i 0 ≤ s[i + k] := by
      rw [← List.getD_eq_getElem s 0 hik]
      exact sorted_getD_mono s hs i (i + k) (by omega) hik
    have hhi : s[i + k] ≤ s.getD j 0 := by
      rw [← List.getD_eq_getElem s 0 hik]
      exact sorted_getD_mono s hs (i + k) j hikj hj
    simp only [Bool.and_eq_true, decide_eq_true_eq]
    exact ⟨hlo, hhi⟩
  have hlen : ((s.take (j + 1)).drop i).length = j + 1 - i := by
    rw [List.length_drop, List.length_take]; omega
  omega

/-- `sortAsc` sorts. -/
theorem sortAsc_sorted (l : List ℚ) : (sortAsc l).Sorted (· ≤ ·) :=
  List.sorted_insertionSort (· ≤ ·) l

/-- `sortAsc` permutes. -/
theorem sortAsc_perm (l : List ℚ) : (sortAsc l).Perm l :=
  List.perm_insertionSort (· ≤ ·) l

/-- Pointwise `low ≤ high` forces at least as many lows as highs below any
threshold. -/
theorem count_low_ge_count_high (bars : List PriceBar)
    (hlh : ∀ b ∈ bars, b.low ≤ b.high) (x : ℚ) :
    (bars.map (fun d => d.high)).countP (fun v => decide (v ≤ x))
      ≤ (bars.map (fun d => d.low)).countP (fun v => decide (v ≤ x)) := by
  induction bars with
  | nil => simp
  | cons b bs ih =>
    have hb := hlh b (List.mem_cons_self b bs)
    have ihs := ih (fun c hc => hlh c (List.mem_cons_of_mem b hc))
    simp only [List.map_cons, List.countP_cons]
    by_cases hhigh : b.high ≤ x
    · have hlow : b.low ≤ x := le_trans hb hhigh
      rw [if_pos (by simpa using hhigh), if_pos (by simpa using hlow)]
      omega
    · by_cases hlow : b.low ≤ x
      · rw [if_neg (by simpa using hhigh), if_pos (by simpa using hlow)]
        omega
      · rw [if_neg (by simpa using hhigh), if_neg (by simpa using hlow)]
        omega

/-- Splitting a count along a second predicate. -/
theorem countP_and_not_add (p q : ℚ → Bool) :
    ∀ (l : List ℚ),
      l.countP (fun a => p a && q a) + l.countP (fun a => p a && !q a) = l.countP p := by
  intro l
  induction l with
  | nil => simp
  | cons x xs ih =>
    by_cases hp : p x <;> by_cases hq : q x <;>
      simp [List.countP_cons, hp, hq] <;> omega

/-- Unfolding `filterOutliers` on a long-enough list. -/
theorem filterOutliers_eq_filter (X : List ℚ) (m : ℚ) (h5 : 5 ≤ X.length) :
    filterOutliers X m = X.filter (fun v =>
      decide ((sortAsc X).getD (jsFloorIdx (sortAsc X).length (1/4)) 0
          - m * ((sortAsc X).getD (jsFloorIdx (sortAsc X).length (3/4)) 0
              - (sortAsc X).getD (jsFloorIdx (sortAsc X).length (1/4)) 0) ≤ v)
        && decide (v ≤ (sortAsc X).getD (jsFloorIdx (sortAsc X).length (3/4)) 0
          + m * ((sortAsc X).getD (jsFloorIdx (sortAsc X).length (3/4)) 0
              - (sortAsc X).getD (jsFloorIdx (sortAsc X).length (1/4)) 0))) := by
  simp only [filterOutliers]
  rw [if_neg (by omega)]

/-- The quartile indices of a sorted copy, in natural division form. -/
theorem sortAsc_quartile_idx (X : List ℚ) :
    jsFloorIdx (sortAsc X).length (1/4) = 1 * X.length / 4
    ∧ jsFloorIdx (sortAsc X).length (3/4) = 3 * X.length / 4 := by
  have hlen : (sortAsc X).length = X.length := (sortAsc_perm X).length_eq
  constructor
  · rw [hlen, show (1/4 : ℚ) = ((1 : ℕ) : ℚ) / ((4 : ℕ) : ℚ) from by norm_num,
      jsFloorIdx_div]
  · rw [hlen, show (3/4 : ℚ) = ((3 : ℕ) : ℚ) / ((4 : ℕ) : ℚ) from by norm_num,
      jsFloorIdx_div]

/-- Counting bounds delivered by the IQR filter, stated against the keep
predicate of `filterOutliers`: (a) at least the whole inter-quartile run
is kept and sits at or below `q3`; (b) anything removed while at or below
some `x ≤ q3` must lie strictly below `q1`; (c) there are at most
`len/4` values strictly below `q1`. -/
theorem keep_count_bounds (X : List ℚ) (m : ℚ) (hm : 0 ≤ m) (h5 : 5 ≤ X.length)
    (q1 q3 : ℚ)
    (hq1 : q1 = (sortAsc X).getD (1 * X.length / 4) 0)
    (hq3 : q3 = (sortAsc X).getD (3 * X.length / 4) 0)
    (keep : ℚ → Bool)
    (hkeep : ∀ v, keep v = (decide (q1 - m * (q3 - q1) ≤ v)
        && decide (v ≤ q3 + m * (q3 - q1)))) :
    (3 * X.length / 4 - 1 * X.length / 4 + 1
        ≤ X.countP (fun v => decide (v ≤ q3) && keep v))
    ∧ (∀ x : ℚ, x ≤ q3 →
        X.countP (fun v => decide (v ≤ x) && !keep v)
          ≤ X.countP (fun v => decide (v < q1)))
    ∧ X.countP (fun v => decide (v < q1)) ≤ 1 * X.length / 4 := by
  have hlen : (sortAsc X).length = X.length := (sortAsc_perm X).length_eq
  have hsorted := sortAsc_sorted X
  have hi25 : 1 * X.length / 4 < (sortAsc X).length := by rw [hlen]; omega
  have hi75 : 3 * X.length / 4 < (sortAsc X).length := by rw [hlen]; omega
  have hq13 : q1 ≤ q3 := by
    rw [hq1, hq3]
    exact sorted_getD_mono _ hsorted _ _ (by omega) hi75
  have hiqr : 0 ≤ m * (q3 - q1) := mul_nonneg hm (by linarith)
  refine ⟨?_, ?_, ?_⟩
  · have hmono : ∀ v ∈ sortAsc X,
        (fun v => decide (q1 ≤ v) && decide (v ≤ q3)) v = true →
        (fun v => decide (v ≤ q3) && keep v) v = true := by
      intro v _ hv
      simp only [Bool.and_eq_true, decide_eq_true_eq] at hv
      simp only [hkeep, Bool.and_eq_true, decide_eq_true_eq]
      exact ⟨hv.2, by linarith [hv.1], by linarith [hv.2]⟩
    have hbetween := sorted_count_between (sortAsc X) hsorted
      (1 * X.length / 4) (3 * X.length / 4) (by omega) hi75
    rw [← hq1, ← hq3] at hbetween
    calc 3 * X.length / 4 - 1 * X.length / 4 + 1
        ≤ (sortAsc X).countP (fun v => decide (q1 ≤ v) && decide (v ≤ q3)) := hbetween
      _ ≤ (sortAsc X).countP (fun v => decide (v ≤ q3) && keep v) :=
          List.countP_mono_left hmono
      _ = X.countP (fun v => decide (v ≤ q3) && keep v) :=
          (sortAsc_perm X).countP_eq _
  · intro x hx
    refine List.countP_mono_left ?_
    intro v _ hv
    simp only [Bool.and_eq_true, decide_eq_true_eq, Bool.not_eq_true', hkeep,
      Bool.and_eq_false_iff, decide_eq_false_iff_not, not_le] at hv
    obtain ⟨hvx, hrem⟩ := hv
    simp only [decide_eq_true_eq]
    rcases hrem with h | h
    · linarith
    · linarith
  · calc X.countP (fun v => decide (v < q1))
        = (sortAsc X).countP (fun v => decide (v < q1)) :=
          ((sortAsc_perm X).countP_eq _).symm
      _ ≤ 1 * X.length / 4 := by
          have := sorted_count_lt (sortAsc X) hsorted (1 * X.length / 4) hi25
          rw [← hq1] at this
          exact this

/-- If every threshold catches at least as many `L`-values as `H`-values
(domination), then the 10th percentile of the outlier-filtered `L` list
never exceeds the 90th percentile of the outlier-filtered `H` list. -/
theorem tenth_le_ninetieth_of_dominated (H L : List ℚ) (m : ℚ) (hm : 0 ≤ m)
    (hlen : H.length = L.length) (hone : 1 ≤ H.length)
    (hdom : ∀ x : ℚ, H.countP (fun v => decide (v ≤ x))
        ≤ L.countP (fun v => decide (v ≤ x))) :
    getPercentile (sortAsc (filterOutliers L m)) (1/10)
      ≤ getPercentile (sortAsc (filterOutliers H m)) (9/10) := by
  by_contra hcon
  push_neg at hcon
  have h910 : (9/10 : ℚ) = ((9:ℕ):ℚ)/((10:ℕ):ℚ) := by norm_num
  have h110 : (1/10 : ℚ) = ((1:ℕ):ℚ)/((10:ℕ):ℚ) := by norm_num
  by_cases hsmall : H.length < 5
  · have hfH : filterOutliers H m = H := by
      simp only [filterOutliers]; rw [if_pos hsmall]
    have hfL : filterOutliers L m = L := by
      simp only [filterOutliers]; rw [if_pos (by omega)]
    rw [hfH, hfL] at hcon
    have hlH : (sortAsc H).length = H.length := (sortAsc_perm H).length_eq
    have hlL : (sortAsc L).length = L.length := (sortAsc_perm L).length_eq
    simp only [getPercentile] at hcon
    rw [hlH, hlL, h910, h110, jsFloorIdx_div, jsFloorIdx_div] at hcon
    have c1 : 9 * H.length / 10 + 1
        ≤ (sortAsc H).countP
          (fun v => decide (v ≤ (sortAsc H).getD (9 * H.length / 10) 0)) :=
      sorted_count_le_ge (sortAsc H) (sortAsc_sorted H) _
        (by rw [hlH]; omega) _ (le_refl _)
    have c2 := (sortAsc_perm H).countP_eq
      (fun v => decide (v ≤ (sortAsc H).getD (9 * H.length / 10) 0))
    have c3 := hdom ((sortAsc H).getD (9 * H.length / 10) 0)
    have c4 := ((sortAsc_perm L).countP_eq
      (fun v => decide (v ≤ (sortAsc H).getD (9 * H.length / 10) 0))).symm
    have c5 : (sortAsc L).countP
        (fun v => decide (v ≤ (sortAsc H).getD (9 * H.length / 10) 0))
          ≤ 1 * L.length / 10 :=
      sorted_count_le_lt (sortAsc L) (sortAsc_sorted L) _
        (by rw [hlL]; omega) _ hcon
    rw [c2] at c1
    rw [c4] at c3
    omega
  · have h5H : 5 ≤ H.length := by omega
    have h5L : 5 ≤ L.length := by omega
    obtain ⟨q1H, hq1H⟩ : ∃ q, (sortAsc H).getD (1 * H.length / 4) 0 = q := ⟨_, rfl⟩
    obtain ⟨q3H, hq3H⟩ : ∃ q, (sortAsc H).getD (3 * H.length / 4) 0 = q := ⟨_, rfl⟩
    obtain ⟨q1L, hq1L⟩ : ∃ q, (sortAsc L).getD (1 * L.length / 4) 0 = q := ⟨_, rfl⟩
    obtain ⟨q3L, hq3L⟩ : ∃ q, (sortAsc L).getD (3 * L.length / 4) 0 = q := ⟨_, rfl⟩
    obtain ⟨keepH, hkeepH⟩ : ∃ k : ℚ → Bool,
        (fun v => decide (q1H - m * (q3H - q1H) ≤ v)
          && decide (v ≤ q3H + m * (q3H - q1H))) = k := ⟨_, rfl⟩
    obtain ⟨keepL, hkeepL⟩ : ∃ k : ℚ → Bool,
        (fun v => decide (q1L - m * (q3L - q1L) ≤ v)
          && decide (v ≤ q3L + m * (q3L - q1L))) = k := ⟨_, rfl⟩
    have hfH : filterOutliers H m = H.filter keepH := by
      rw [filterOutliers_eq_filter H m h5H, (sortAsc_quartile_idx H).1,
        (sortAsc_quartile_idx H).2, hq1H, hq3H, hkeepH]
    have hfL : filterOutliers L m = L.filter keepL := by
      rw [filterOutliers_eq_filter L m h5L, (sortAsc_quartile_idx L).1,
        (sortAsc_quartile_idx L).2, hq1L, hq3L, hkeepL]
    obtain ⟨hKH, -, -⟩ := keep_count_bounds H m hm h5H q1H q3H hq1H.symm hq3H.symm
      keepH (fun v => by rw [← hkeepH])
    obtain ⟨hKL, hremL, hltL⟩ := keep_count_bounds L m hm h5L q1L q3L hq1L.symm hq3L.symm
      keepL (fun v => by rw [← hkeepL])
    have hKH' : 3 * H.length / 4 - 1 * H.length / 4 + 1 ≤ H.countP keepH :=
      le_trans hKH (List.countP_mono_left (fun v _ hv => by
        simp only [Bool.and_eq_true] at hv; exact hv.2))
    have hKL' : 3 * L.length / 4 - 1 * L.length / 4 + 1 ≤ L.countP keepL :=
      le_trans hKL (List.countP_mono_left (fun v _ hv => by
        simp only [Bool.and_eq_true] at hv; exact hv.2))
    have hnH : (H.filter keepH).length = H.countP keepH :=
      (List.countP_eq_length_filter keepH H).symm
    have hnL : (L.filter keepL).length = L.countP keepL :=
      (List.countP_eq_length_filter keepL L).symm
    have hnHle : (H.filter keepH).length ≤ H.length := List.length_filter_le keepH H
    have hnLle : (L.filter keepL).length ≤ L.length := List.length_filter_le keepL L
    have hlfH : (sortAsc (H.filter keepH)).length = (H.filter keepH).length :=
      (sortAsc_perm (H.filter keepH)).length_eq
    have hlfL : (sortAsc (L.filter keepL)).length = (L.filter keepL).length :=
      (sortAsc_perm (L.filter keepL)).length_eq
    rw [hfH, hfL] at hcon
    simp only [getPercentile] at hcon
    rw [hlfH, hlfL, h910, h110, jsFloorIdx_div, jsFloorIdx_div] at hcon
    obtain ⟨U, hU⟩ : ∃ u,
        (sortAsc (H.filter keepH)).getD (9 * (H.filter keepH).length / 10) 0 = u :=
      ⟨_, rfl⟩
    obtain ⟨Lo, hLo⟩ : ∃ u,
        (sortAsc (L.filter keepL)).getD (1 * (L.filter keepL).length / 10) 0 = u :=
      ⟨_, rfl⟩
    rw [hU, hLo] at hcon
    have c1 : 9 * (H.filter keepH).length / 10 + 1
        ≤ (sortAsc (H.filter keepH)).countP (fun v => decide (v ≤ U)) :=
      sorted_count_le_ge (sortAsc (H.filter keepH)) (sortAsc_sorted _) _
        (by rw [hlfH]; omega) _ (le_of_eq hU)
    have c2 : (sortAsc (H.filter keepH)).countP (fun v => decide (v ≤ U))
        = H.countP (fun v => decide (v ≤ U) && keepH v) := by
      rw [(sortAsc_perm (H.filter keepH)).countP_eq, List.countP_filter ..]
    have c3 := hdom U
    have c6 := (countP_and_not_add (fun v => decide (v ≤ U)) keepL L).symm
    have c8 : L.countP (fun v => decide (v ≤ U) && keepL v) ≤ 1 * (L.filter keepL).length / 10 := by
      rw [← List.countP_filter .., ← (sortAsc_perm (L.filter keepL)).countP_eq]
      exact sorted_count_le_lt (sortAsc (L.filter keepL)) (sortAsc_sorted _) _
        (by rw [hlfL]; omega) _ (hLo.symm ▸ hcon)
    have hq3Lo : Lo ≤ q3L := by
      by_contra hq3lo
      push_neg at hq3lo
      have a1 : (sortAsc (L.filter keepL)).countP (fun v => decide (v ≤ q3L))
          ≤ 1 * (L.filter keepL).length / 10 :=
        sorted_count_le_lt (sortAsc (L.filter keepL)) (sortAsc_sorted _) _
          (by rw [hlfL]; omega) _ (hLo.symm ▸ hq3lo)
      have a2 : L.countP (fun v => decide (v ≤ q3L) && keepL v)
          = (sortAsc (L.filter keepL)).countP (fun v => decide (v ≤ q3L)) := by
        rw [(sortAsc_perm (L.filter keepL)).countP_eq, List.countP_filter ..]
      rw [a2] at hKL
      omega
    have c10 : L.countP (fun v => decide (v ≤ U) && !keepL v)
        ≤ L.countP (fun v => decide (v < q1L)) :=
      hremL U (le_trans (le_of_lt hcon) hq3Lo)
    have c2b : H.countP (fun v => decide (v ≤ U) && keepH v)
        ≤ H.countP (fun v => decide (v ≤ U)) :=
      List.countP_mono_left (fun v _ hv => by
        simp only [Bool.and_eq_true] at hv; exact hv.1)
    rw [c2] at c1
    omega

/-- **C4.** For every non-empty window of valid bars (low ≤ high on each
bar), `calculateConsolidationBounds` returns `upperBound` = the 90th
percentile of the IQR-outlier-filtered highs, `lowerBound` = the 10th
percentile of the IQR-outlier-filtered lows, and never returns
`upperBound < lowerBound`. -/
theorem consolidation_bounds_ordered (data : List PriceBar) (m : ℚ)
    (hne : data ≠ []) (hm : 0 ≤ m)
    (hvalid : ∀ b ∈ data, b.low ≤ b.high) :
    (calculateConsolidationBounds data (1/10) (9/10) m).upperBound
        = getPercentile (sortAsc (filterOutliers (data.map (fun d => d.high)) m)) (9/10)
    ∧ (calculateConsolidationBounds data (1/10) (9/10) m).lowerBound
        = getPercentile (sortAsc (filterOutliers (data.map (fun d => d.low)) m)) (1/10)
    ∧ (calculateConsolidationBounds data (1/10) (9/10) m).lowerBound
        ≤ (calculateConsolidationBounds data (1/10) (9/10) m).upperBound := by
  refine ⟨rfl, rfl, ?_⟩
  show getPercentile (sortAsc (filterOutliers (data.map (fun d => d.low)) m)) (1/10)
      ≤ getPercentile (sortAsc (filterOutliers (data.map (fun d => d.high)) m)) (9/10)
  have hone : 1 ≤ (data.map (fun d => d.high)).length := by
    have : 0 < data.length := List.length_pos.mpr hne
    simpa using this
  exact tenth_le_ninetieth_of_dominated _ _ m hm (by simp) hone
    (count_low_ge_count_high data hvalid)

/-- Witness for C4 on the two-bar doji window with multiplier 1. -/
theorem consolidation_bounds_ordered_witness :
    (calculateConsolidationBounds dojiData (1/10) (9/10) 1).lowerBound
      ≤ (calculateConsolidationBounds dojiData (1/10) (9/10) 1).upperBound :=
  (consolidation_bounds_ordered dojiData 1
    (by simp [dojiData])
    (by norm_num)
    (by
      intro b hb
      simp only [dojiData, mkBar, List.mem_cons, List.not_mem_nil, or_false] at hb
      rcases hb with h | h <;> subst h <;> norm_num)).2.2
